import Mathlib

/-!
# IfcParse schema declaration model

A shallow embedding of `src/ifcparse/IfcSchema.h` (IfcOpenShell) and theorems about
entity attribute flattening, attribute index resolution, the `is` query, the mutators of
an entity, the narrowing queries of a declaration, and the construction and the lookups by name
and by type code of `schema_definition`.  `std::sort`, `std::lower_bound`,
`std::find` and `std::find_if` belong to the C++ standard library; they are embedded by their
textbook algorithms (insertion sort, the halving loop of binary search, linear search).

Conventions of the embedding

* A C++ pointer is a natural number (an address).  Pointers to attributes and to
  declarations are dereferenced through an explicit memory `Nat → _`; pointer
  comparison is comparison of addresses.
* `entity::supertype_` is fixed by the constructor and has no setter, so a supertype
  exists before each of its subtypes and the supertype chain is finite and acyclic.
  An entity therefore carries its supertype object, and `none` is the null pointer.
* `std::string` is a sequence of characters compared lexicographically.
* `IfcSchema::Type::Enum` values are natural numbers; the registry function
  `IfcSchema::Type::ToString` lives in a header that is not part of this file and is
  taken as a parameter.
* `ptrdiff_t` is modelled by `Int`: an index never exceeds the number of attribute
  pointers held in memory, so it stays far below `2^63`.
-/

namespace IfcParse

/-! ## Standard library pieces used by the header -/

/-- The type `std::string`: a sequence of characters, ordered lexicographically. -/
abbrev std_string := List Char

/-- The function `boost::to_lower_copy` in the classic locale: `A`..`Z` become `a`..`z`. -/
def to_lower_copy (s : std_string) : std_string := s.map Char.toLower

/-- The algorithm `std::find_if` over a whole vector; the returned iterator is its offset from
`begin()`, so `end()` is the length of the vector. -/
def std_find_if {α : Type} (pred : α → Bool) : List α → Nat
  | [] => 0
  | x :: xs => if pred x then 0 else std_find_if pred xs + 1

/-- The algorithm `std::find` over a vector of pointers: the first position holding `value`. -/
def std_find (xs : List Nat) (value : Nat) : Nat :=
  std_find_if (fun x => x == value) xs

/-! ## Entities -/

/-- The class `entity::attribute`. -/
structure entity_attribute where
  name_ : std_string
  type_of_attribute_ : Nat
  optional_ : Bool

/-- The method `entity::attribute::name`. -/
def entity_attribute.name (a : entity_attribute) : std_string := a.name_

/-- The class `entity`: the type code inherited from `declaration`, the supertype (or null),
and the vectors of pointers `subtypes_`, `attributes_`, `derived_`, `inverse_attributes_`. -/
inductive entity where
  | mk (name_ : Nat) (supertype_ : Option entity) (subtypes_ : List Nat)
      (attributes_ : List Nat) (derived_ : List Bool) (inverse_attributes_ : List Nat)

/-- The method `declaration::type` on an entity. -/
def entity.type : entity → Nat
  | .mk name_ _ _ _ _ _ => name_

/-- The method `entity::supertype`. -/
def entity.supertype : entity → Option entity
  | .mk _ supertype_ _ _ _ _ => supertype_

/-- The method `entity::attributes`. -/
def entity.attributes : entity → List Nat
  | .mk _ _ _ attributes_ _ _ => attributes_

/-- The method `entity::derived`. -/
def entity.derived : entity → List Bool
  | .mk _ _ _ _ derived_ _ => derived_

/-- The method `entity::is(IfcSchema::Type::Enum)`. -/
def entity.is : entity → Nat → Bool
  | .mk name_ (some s) _ _ _ _, name => if name = name_ then true else s.is name
  | .mk name_ none _ _ _ _, name => if name = name_ then true else false

/-- The method `entity::all_attributes`. -/
def entity.all_attributes : entity → List Nat
  | .mk _ (some s) _ attributes_ _ _ => s.all_attributes ++ attributes_
  | .mk _ none _ attributes_ _ _ => attributes_

/-- One pass through the body of the `do ... while` loop of `attribute_index`: the new value of
`index` given the own attribute list of `current` and the offset `it` found in it. -/
def index_step (index : Int) (attributes : List Nat) (it : Nat) : Int :=
  if index > -1 then index + attributes.length
  else if it ≠ attributes.length then (it : Int) else index

/-- The `do ... while (current = current->supertype_)` loop of
`entity::attribute_index(const attribute*)`, started at `current` with the given `index`. -/
def entity.attribute_index_loop (attr : Nat) : entity → Int → Int
  | .mk _ (some s) _ attributes_ _ _, index =>
      s.attribute_index_loop attr (index_step index attributes_ (std_find attributes_ attr))
  | .mk _ none _ attributes_ _ _, index =>
      index_step index attributes_ (std_find attributes_ attr)

/-- The method `entity::attribute_index(const attribute*)`. -/
def entity.attribute_index (e : entity) (attr : Nat) : Int :=
  e.attribute_index_loop attr (-1)

/-- The functor `entity::attribute_by_name_cmp`: exact comparison of the attribute's name. -/
def attribute_by_name_cmp (mem : Nat → entity_attribute) (name_ : std_string) (attr : Nat) : Bool :=
  (mem attr).name == name_

/-- The loop of `entity::attribute_index(const std::string&)`. -/
def entity.attribute_index_name_loop (mem : Nat → entity_attribute) (attr_name : std_string) :
    entity → Int → Int
  | .mk _ (some s) _ attributes_ _ _, index =>
      s.attribute_index_name_loop mem attr_name
        (index_step index attributes_ (std_find_if (attribute_by_name_cmp mem attr_name) attributes_))
  | .mk _ none _ attributes_ _ _, index =>
      index_step index attributes_ (std_find_if (attribute_by_name_cmp mem attr_name) attributes_)

/-- The method `entity::attribute_index(const std::string&)`. -/
def entity.attribute_index_name (mem : Nat → entity_attribute) (e : entity)
    (attr_name : std_string) : Int :=
  e.attribute_index_name_loop mem attr_name (-1)

/-- The entities reached from `e` by following `supertype_`: `e` first, the root last. -/
def entity.supertype_chain : entity → List entity
  | .mk name_ (some s) subtypes_ attributes_ derived_ inverse_attributes_ =>
      .mk name_ (some s) subtypes_ attributes_ derived_ inverse_attributes_ :: s.supertype_chain
  | .mk name_ none subtypes_ attributes_ derived_ inverse_attributes_ =>
      [.mk name_ none subtypes_ attributes_ derived_ inverse_attributes_]

/-- The proper ancestors of `e`: its supertype, the supertype of that, and so on. -/
def entity.ancestors : entity → List entity
  | .mk _ (some s) _ _ _ _ => s.supertype_chain
  | .mk _ none _ _ _ _ => []

/-- The loop shared by the two overloads of `attribute_index`, with the search of one level
given by a predicate on attribute pointers; used to reason about both overloads at once. -/
def entity.index_walk (pred : Nat → Bool) : entity → Int → Int
  | .mk _ (some s) _ attributes_ _ _, index =>
      s.index_walk pred (index_step index attributes_ (std_find_if pred attributes_))
  | .mk _ none _ attributes_ _ _, index =>
      index_step index attributes_ (std_find_if pred attributes_)

/-! ## Declarations -/

/-- The class `declaration` and its four subclasses.  `plain` is an object of the base class
itself, which has public constructors and no pure virtual member.  Each constructor carries the
type code `name_`; the entity variant carries the entity, whose first field is that code. -/
inductive declaration where
  | plain (name_ : Nat)
  | type_declaration (name_ : Nat) (declared_type_ : Nat)
  | select_type (name_ : Nat) (select_list_ : List Nat)
  | enumeration_type (name_ : Nat) (enumeration_items_ : List std_string)
  | entity (e : entity)

/-- The method `declaration::type`. -/
def declaration.type : declaration → Nat
  | .plain name_ => name_
  | .type_declaration name_ _ => name_
  | .select_type name_ _ => name_
  | .enumeration_type name_ _ => name_
  | .entity e => e.type

/-- The method `declaration::name`: the registry's string for the type code. -/
def declaration.name (Type_ToString : Nat → std_string) (d : declaration) : std_string :=
  Type_ToString d.type

/-- The virtual method `as_type_declaration`, called through the pointer `p`: `this` for a
`type_declaration`, null otherwise. -/
def as_type_declaration (mem : Nat → declaration) (p : Nat) : Option Nat :=
  match mem p with
  | .type_declaration _ _ => some p
  | _ => none

/-- The virtual method `as_select_type`, called through the pointer `p`. -/
def as_select_type (mem : Nat → declaration) (p : Nat) : Option Nat :=
  match mem p with
  | .select_type _ _ => some p
  | _ => none

/-- The virtual method `as_enumeration_type`, called through the pointer `p`. -/
def as_enumeration_type (mem : Nat → declaration) (p : Nat) : Option Nat :=
  match mem p with
  | .enumeration_type _ _ => some p
  | _ => none

/-- The virtual method `as_entity`, called through the pointer `p`. -/
def as_entity (mem : Nat → declaration) (p : Nat) : Option Nat :=
  match mem p with
  | .entity _ => some p
  | _ => none

/-! ## Sorting and binary search -/

/-- Insertion of `x` into a list sorted by the strict comparator `comp`. -/
def sort_insert {α : Type} (comp : α → α → Bool) (x : α) : List α → List α
  | [] => [x]
  | y :: ys => if comp x y then x :: y :: ys else y :: sort_insert comp x ys

/-- The algorithm `std::sort` with a comparator, modelled by insertion sort driven by the same
comparator.  The C++ standard fixes the result up to the order of elements that compare
equivalent; the theorems below that depend on that order assume distinct keys. -/
def std_sort {α : Type} (comp : α → α → Bool) : List α → List α
  | [] => []
  | x :: xs => sort_insert comp x (std_sort comp xs)

/-- The loop of `std::lower_bound`: `first` and `len` are the loop variables, the iterator
`first` being an offset into `xs`.  Each pass makes `len` smaller, so `fuel ≥ len` passes are
enough.  The branch `none` is not reached while `first + len ≤ xs.length`. -/
def std_lower_bound_loop {α β : Type} (comp : α → β → Bool) (xs : List α) (val : β) :
    Nat → Nat → Nat → Nat
  | 0, first, _ => first
  | fuel + 1, first, len =>
    if 0 < len then
      match xs[first + len / 2]? with
      | some middle =>
        if comp middle val then
          std_lower_bound_loop comp xs val fuel (first + len / 2 + 1) (len - len / 2 - 1)
        else
          std_lower_bound_loop comp xs val fuel first (len / 2)
      | none => first
    else first

/-- The algorithm `std::lower_bound(begin, end, val, comp)` over a whole vector; the result is an
offset from `begin()`. -/
def std_lower_bound {α β : Type} (comp : α → β → Bool) (xs : List α) (val : β) : Nat :=
  std_lower_bound_loop comp xs val xs.length 0 xs.length

/-! ## Schema definitions -/

/-- The functor `schema_definition::declaration_by_name_cmp`. -/
def declaration_by_name_cmp (Type_ToString : Nat → std_string) (mem : Nat → declaration)
    (decl : Nat) (name : std_string) : Bool :=
  decide (to_lower_copy ((mem decl).name Type_ToString) < to_lower_copy name)

/-- The functor `schema_definition::declaration_by_enum_sort`. -/
def declaration_by_enum_sort (mem : Nat → declaration) (a b : Nat) : Bool :=
  decide ((mem a).type < (mem b).type)

/-- The class `schema_definition`; every vector holds pointers to declarations. -/
structure schema_definition where
  built_in_ : Bool
  name_ : std_string
  declarations_ : List Nat
  type_declarations_ : List Nat
  select_types_ : List Nat
  enumeration_types_ : List Nat
  entities_ : List Nat

/-- The statement `if (p) v.push_back(p)` of the constructor's loop. -/
def push_back_if (v : List Nat) (p : Option Nat) : List Nat :=
  match p with
  | some q => v ++ [q]
  | none => v

/-- The body of the `for` loop of the constructor of `schema_definition`. -/
def schema_definition.loop_body (mem : Nat → declaration) (S : schema_definition) (it : Nat) :
    schema_definition :=
  schema_definition.mk S.built_in_ S.name_ S.declarations_
    (push_back_if S.type_declarations_ (as_type_declaration mem it))
    (push_back_if S.select_types_ (as_select_type mem it))
    (push_back_if S.enumeration_types_ (as_enumeration_type mem it))
    (push_back_if S.entities_ (as_entity mem it))

/-- The constructor `schema_definition::schema_definition(name, declarations, built_in)`. -/
def schema_definition.construct (mem : Nat → declaration) (name : std_string)
    (declarations : List Nat) (built_in : Bool) : schema_definition :=
  let sorted := std_sort (declaration_by_enum_sort mem) declarations
  sorted.foldl (schema_definition.loop_body mem)
    (schema_definition.mk built_in name sorted [] [] [] [])

/-- The method `schema_definition::declarations`. -/
def schema_definition.declarations (S : schema_definition) : List Nat := S.declarations_

/-- The method `schema_definition::type_declarations`. -/
def schema_definition.type_declarations (S : schema_definition) : List Nat := S.type_declarations_

/-- The method `schema_definition::select_types`. -/
def schema_definition.select_types (S : schema_definition) : List Nat := S.select_types_

/-- The method `schema_definition::enumeration_types`. -/
def schema_definition.enumeration_types (S : schema_definition) : List Nat := S.enumeration_types_

/-- The method `schema_definition::entities`. -/
def schema_definition.entities (S : schema_definition) : List Nat := S.entities_

/-- The message of the `IfcException` thrown by `declaration_by_name`. -/
def not_found_message (name : std_string) : std_string :=
  "Entity with '".toList ++ name ++ "' not found".toList

/-- The method `schema_definition::declaration_by_name(const std::string&)`.  A thrown
`IfcException` is `Except.error` with its message; `it == declarations_.end()` is the case in
which offset `it` holds no element. -/
def schema_definition.declaration_by_name (Type_ToString : Nat → std_string) (mem : Nat → declaration)
    (S : schema_definition) (name : std_string) : Except std_string Nat :=
  let it := std_lower_bound (declaration_by_name_cmp Type_ToString mem) S.declarations_ name
  match S.declarations_[it]? with
  | none => Except.error (not_found_message name)
  | some d =>
    if to_lower_copy ((mem d).name Type_ToString) ≠ to_lower_copy name then
      Except.error (not_found_message name)
    else Except.ok d

/-! ## Example objects -/

/-- Attribute memory of the examples: `10` and `11` are both named `x`, `12` is named `Name`,
every other address holds an attribute named `y`. -/
def example_attributes (p : Nat) : entity_attribute :=
  if p = 10 then ⟨"x".toList, 0, false⟩
  else if p = 11 then ⟨"x".toList, 1, false⟩
  else if p = 12 then ⟨"Name".toList, 1, true⟩
  else ⟨"y".toList, 0, false⟩

/-- A root entity with the own attribute `10`. -/
def example_Base : entity := .mk 0 none [] [10] [false] []

/-- A subtype of `example_Base` with the own attribute `11`, which has the name of `10`. -/
def example_Derived : entity := .mk 1 (some example_Base) [] [11] [false] []

/-- A subtype of `example_Base` with the own attributes `12` and `13`. -/
def example_Named : entity := .mk 2 (some example_Base) [] [12, 13] [false, false] []

/-- Declaration memory of the examples: one object of each subclass at `100`..`103` with the
type codes `0`..`3`, and an object of the base class at `104` with the type code `4`. -/
def example_declarations (p : Nat) : declaration :=
  if p = 100 then .type_declaration 0 0
  else if p = 101 then .entity (.mk 1 none [] [] [] [])
  else if p = 102 then .select_type 2 [100, 101]
  else if p = 103 then .enumeration_type 3 ["ON".toList, "OFF".toList]
  else .plain 4

/-- Whether the object is of the base class `declaration` itself: the overrides of the four
subclasses are absent, so all four `as_` queries use the base implementation. -/
def declaration.is_plain : declaration → Bool
  | .plain _ => true
  | _ => false

/-- The four per-kind views of a schema definition, in the order of the constructor's loop. -/
def schema_definition.views (S : schema_definition) : List (List Nat) :=
  [S.type_declarations, S.select_types, S.enumeration_types, S.entities]

/-- A registry in which the order of the type codes is not the order of the names. -/
def example_registry_unordered (code : Nat) : std_string :=
  if code = 0 then "IfcWall".toList
  else if code = 1 then "IfcBeam".toList
  else if code = 2 then "IfcSlab".toList
  else "IfcZone".toList

/-- A registry whose names increase with the type codes `0`..`4`. -/
def example_registry_ordered (code : Nat) : std_string :=
  if code = 0 then "IfcBeam".toList
  else if code = 1 then "IfcSlab".toList
  else if code = 2 then "IfcWall".toList
  else if code = 3 then "IfcWindow".toList
  else "IfcZone".toList

/-- The lower-cased name of the declaration behind a pointer: the key that
`declaration_by_name_cmp` compares. -/
def lower_name (Type_ToString : Nat → std_string) (mem : Nat → declaration) (p : Nat) :
    std_string :=
  to_lower_copy ((mem p).name Type_ToString)

/-! ## Mutators, inverse attributes and the remaining classes -/

/-- The constructor `entity::entity(name, supertype)`: the four vectors start empty. -/
def entity.construct (name : Nat) (supertype : Option entity) : entity :=
  .mk name supertype [] [] [] []

/-- The method `entity::subtypes`. -/
def entity.subtypes : entity → List Nat
  | .mk _ _ subtypes_ _ _ _ => subtypes_

/-- The member `inverse_attributes_` of an entity; the class has no accessor for it. -/
def entity.inverse_attributes_ : entity → List Nat
  | .mk _ _ _ _ _ inverse_attributes_ => inverse_attributes_

/-- The method `entity::set_subtypes`. -/
def entity.set_subtypes : entity → List Nat → entity
  | .mk name_ supertype_ _ attributes_ derived_ inverse_attributes_, subtypes =>
      .mk name_ supertype_ subtypes attributes_ derived_ inverse_attributes_

/-- The method `entity::set_attributes`: two assignments, no check of the two sizes. -/
def entity.set_attributes : entity → List Nat → List Bool → entity
  | .mk name_ supertype_ subtypes_ _ _ inverse_attributes_, attributes, derived =>
      .mk name_ supertype_ subtypes_ attributes derived inverse_attributes_

/-- The method `entity::set_inverse_attributes`. -/
def entity.set_inverse_attributes : entity → List Nat → entity
  | .mk name_ supertype_ subtypes_ attributes_ derived_ _, inverse_attributes =>
      .mk name_ supertype_ subtypes_ attributes_ derived_ inverse_attributes

/-- The method `entity::all_inverse_attributes`. -/
def entity.all_inverse_attributes : entity → List Nat
  | .mk _ (some s) _ _ _ inverse_attributes_ => s.all_inverse_attributes ++ inverse_attributes_
  | .mk _ none _ _ _ inverse_attributes_ => inverse_attributes_

/-- The outcome of `schema_definition::declaration_by_name(IfcSchema::Type::Enum)`:
`throw_no_operand` is the statement `throw;`, which returns nothing to the caller (it rethrows
the exception being handled, or calls `std::terminate` when there is none); `out_of_bounds` is
`declarations_[name]` past the end of the vector, which the language leaves undefined;
`returned p` is the normal return of the pointer `p`. -/
inductive enum_lookup where
  | throw_no_operand
  | out_of_bounds
  | returned (p : Nat)

/-- The method `schema_definition::declaration_by_name(IfcSchema::Type::Enum)`. -/
def schema_definition.declaration_by_name_enum (S : schema_definition) (name : Nat) :
    enum_lookup :=
  if !S.built_in_ then enum_lookup.throw_no_operand
  else
    match S.declarations_[name]? with
    | some d => enum_lookup.returned d
    | none => enum_lookup.out_of_bounds

/-- The constructor `select_type::select_type(IfcSchema::Type::Enum, select_list)`. -/
def select_type_construct (name : Nat) (select_list : List Nat) : declaration :=
  .select_type name select_list

/-- The constructor `select_type::select_type(const std::string&, select_list)`: the base
constructor asks the registry for the code, and `FromString` fails on an unknown name. -/
def select_type_construct_name (FromString : std_string → Option Nat) (name : std_string)
    (select_list : List Nat) : Option declaration :=
  match FromString name with
  | some code => some (.select_type code select_list)
  | none => none

/-- The method `select_type::select_list`; only a `select_type` has it. -/
def declaration.select_list : declaration → Option (List Nat)
  | .select_type _ select_list_ => some select_list_
  | _ => none

/-- The results of the four narrowing queries on the declaration behind `p`, in the order
`as_type_declaration`, `as_select_type`, `as_enumeration_type`, `as_entity`. -/
def narrowing_queries (mem : Nat → declaration) (p : Nat) : List (Option Nat) :=
  [as_type_declaration mem p, as_select_type mem p, as_enumeration_type mem p, as_entity mem p]

/-- The enumeration `aggregation_type::aggregate_type`. -/
inductive aggregate_type where
  | array_type
  | bag_type
  | list_type
  | set_type

/-- The class `aggregation_type`; the constructor stores its four arguments in this order. -/
structure aggregation_type where
  type_of_aggregation_ : aggregate_type
  bound1_ : Int
  bound2_ : Int
  type_of_element_ : Nat

/-- The method `aggregation_type::type_of_aggregation`.  Its body is the expression statement
`type_of_aggregation_;` without `return`: the member is read and dropped, and control flows off
the end of a function with a non-void return type, so no value is handed to the caller. -/
def aggregation_type.type_of_aggregation (a : aggregation_type) : Option aggregate_type :=
  let _dropped := a.type_of_aggregation_
  none

/-- The method `aggregation_type::bound1`. -/
def aggregation_type.bound1 (a : aggregation_type) : Int := a.bound1_

/-- The method `aggregation_type::bound2`. -/
def aggregation_type.bound2 (a : aggregation_type) : Int := a.bound2_

/-- The enumeration `entity::inverse_attribute::aggregate_type`. -/
inductive inverse_aggregate_type where
  | bag_type
  | set_type
  | unspecified_type

/-- The class `entity::inverse_attribute` with the members its constructor initialises, in the
order of the constructor's arguments (`type_of_element_` is declared but never written or
read). -/
structure inverse_attribute where
  name_ : std_string
  type_of_aggregation_ : inverse_aggregate_type
  bound1_ : Int
  bound2_ : Int
  entity_reference_ : Nat
  attribute_reference_ : Nat

/-- The method `inverse_attribute::type_of_aggregation`: as in `aggregation_type`, the body
`type_of_aggregation_;` has no `return`. -/
def inverse_attribute.type_of_aggregation (a : inverse_attribute) :
    Option inverse_aggregate_type :=
  let _dropped := a.type_of_aggregation_
  none

/-- The method `inverse_attribute::bound1`. -/
def inverse_attribute.bound1 (a : inverse_attribute) : Int := a.bound1_

/-- The method `inverse_attribute::bound2`. -/
def inverse_attribute.bound2 (a : inverse_attribute) : Int := a.bound2_

/-! ## Lemmas on `std_find_if` -/

theorem std_find_if_le {α : Type} (pred : α → Bool) (xs : List α) :
    std_find_if pred xs ≤ xs.length := by
  induction xs with
  | nil => simp [std_find_if]
  | cons x xs ih =>
    simp only [std_find_if]
    split
    · simp
    · simp; omega

theorem std_find_if_eq_length {α : Type} (pred : α → Bool) (xs : List α) :
    std_find_if pred xs = xs.length ↔ ∀ a ∈ xs, pred a = false := by
  induction xs with
  | nil => simp [std_find_if]
  | cons x xs ih =>
    simp only [std_find_if]
    by_cases hx : pred x = true
    · simp [hx]
    · simp [hx, ih]

theorem std_find_if_getElem {α : Type} (pred : α → Bool) (xs : List α)
    (h : std_find_if pred xs ≠ xs.length) :
    ∃ a, xs[std_find_if pred xs]? = some a ∧ pred a = true := by
  induction xs with
  | nil => simp [std_find_if] at h
  | cons x xs ih =>
    simp only [std_find_if] at h ⊢
    by_cases hx : pred x = true
    · exact ⟨x, by simp [hx], hx⟩
    · simp only [hx, Bool.false_eq_true, if_false] at h ⊢
      have h1 : std_find_if pred xs ≠ xs.length := by
        intro hc; apply h; simp [hc]
      obtain ⟨a, ha, hp⟩ := ih h1
      exact ⟨a, by simpa using ha, hp⟩

theorem std_find_if_congr {α : Type} (p q : α → Bool) (xs : List α)
    (h : ∀ a ∈ xs, p a = q a) : std_find_if p xs = std_find_if q xs := by
  induction xs with
  | nil => rfl
  | cons x xs ih =>
    simp only [std_find_if]
    rw [h x (by simp), ih (fun a ha => h a (by simp [ha]))]

/-! ## Lemmas on the index walk -/

theorem attribute_index_loop_eq_walk (attr : Nat) :
    ∀ (e : entity) (index : Int),
      e.attribute_index_loop attr index = e.index_walk (fun x => x == attr) index
  | .mk _ (some s) _ _ _ _, index => by
      simp only [entity.attribute_index_loop, entity.index_walk, std_find]
      exact attribute_index_loop_eq_walk attr s _
  | .mk _ none _ _ _ _, index => by
      simp only [entity.attribute_index_loop, entity.index_walk, std_find]

theorem attribute_index_name_loop_eq_walk (mem : Nat → entity_attribute) (n : std_string) :
    ∀ (e : entity) (index : Int),
      e.attribute_index_name_loop mem n index = e.index_walk (attribute_by_name_cmp mem n) index
  | .mk _ (some s) _ _ _ _, index => by
      simp only [entity.attribute_index_name_loop, entity.index_walk]
      exact attribute_index_name_loop_eq_walk mem n s _
  | .mk _ none _ _ _ _, index => by
      simp only [entity.attribute_index_name_loop, entity.index_walk]

theorem index_step_found (index : Int) (attributes : List Nat) (it : Nat) (h : 0 ≤ index) :
    index_step index attributes it = index + attributes.length := by
  unfold index_step
  rw [if_pos (by omega)]

/-- Once an index has been found, every further level adds its own attribute count. -/
theorem index_walk_found (pred : Nat → Bool) :
    ∀ (e : entity) (index : Int), 0 ≤ index →
      e.index_walk pred index = index + e.all_attributes.length
  | .mk _ (some s) _ attributes_ _ _, index, h => by
      simp only [entity.index_walk, entity.all_attributes]
      rw [index_step_found _ _ _ h, index_walk_found pred s _ (by omega)]
      simp only [List.length_append, Nat.cast_add]
      omega
  | .mk _ none _ attributes_ _ _, index, h => by
      simp only [entity.index_walk, entity.all_attributes]
      exact index_step_found _ _ _ h

/-- The walk started with `-1` either stays at `-1`, and then no flattened attribute satisfies
the predicate, or ends at a position of the flattened list that satisfies it. -/
theorem index_walk_spec (pred : Nat → Bool) :
    ∀ (e : entity),
      (e.index_walk pred (-1) = -1 ∧ ∀ a ∈ e.all_attributes, pred a = false) ∨
      (∃ i : Nat, e.index_walk pred (-1) = (i : Int) ∧
        ∃ a, e.all_attributes[i]? = some a ∧ pred a = true)
  | .mk _ (some s) _ attributes_ _ _ => by
      simp only [entity.index_walk, entity.all_attributes]
      by_cases hk : std_find_if pred attributes_ = attributes_.length
      · have hstep : index_step (-1) attributes_ (std_find_if pred attributes_) = -1 := by
          simp [index_step, hk]
        rw [hstep]
        rcases index_walk_spec pred s with ⟨h1, h2⟩ | ⟨i, h1, a, ha, hp⟩
        · left
          refine ⟨h1, ?_⟩
          intro a ha
          rcases List.mem_append.mp ha with h | h
          · exact h2 a h
          · exact (std_find_if_eq_length pred attributes_).mp hk a h
        · right
          refine ⟨i, h1, a, ?_, hp⟩
          have hi : i < s.all_attributes.length := by
            rcases Nat.lt_or_ge i s.all_attributes.length with h | h
            · exact h
            · rw [List.getElem?_eq_none h] at ha; cases ha
          rw [List.getElem?_append_left hi]; exact ha
      · have hstep : index_step (-1) attributes_ (std_find_if pred attributes_)
            = (std_find_if pred attributes_ : Int) := by
          simp [index_step, hk]
        rw [hstep, index_walk_found pred s _ (by omega)]
        obtain ⟨a, ha, hp⟩ := std_find_if_getElem pred attributes_ hk
        right
        refine ⟨s.all_attributes.length + std_find_if pred attributes_, ?_, a, ?_, hp⟩
        · push_cast; omega
        · rw [List.getElem?_append_right (by omega)]
          simpa using ha
  | .mk _ none _ attributes_ _ _ => by
      simp only [entity.index_walk, entity.all_attributes]
      by_cases hk : std_find_if pred attributes_ = attributes_.length
      · left
        refine ⟨by simp [index_step, hk], (std_find_if_eq_length pred attributes_).mp hk⟩
      · right
        obtain ⟨a, ha, hp⟩ := std_find_if_getElem pred attributes_ hk
        exact ⟨std_find_if pred attributes_, by simp [index_step, hk], a, ha, hp⟩

/-- Two predicates that agree on every flattened attribute drive the walk to the same result. -/
theorem index_walk_congr (p q : Nat → Bool) :
    ∀ (e : entity) (index : Int), (∀ a ∈ e.all_attributes, p a = q a) →
      e.index_walk p index = e.index_walk q index
  | .mk _ (some s) _ attributes_ _ _, index, h => by
      simp only [entity.index_walk, entity.all_attributes] at h ⊢
      rw [std_find_if_congr p q attributes_ (fun a ha => h a (List.mem_append.mpr (Or.inr ha)))]
      exact index_walk_congr p q s _ (fun a ha => h a (List.mem_append.mpr (Or.inl ha)))
  | .mk _ none _ attributes_ _ _, index, h => by
      simp only [entity.index_walk, entity.all_attributes] at h ⊢
      rw [std_find_if_congr p q attributes_ h]

theorem getElem?_lt_length {α : Type} {xs : List α} {i : Nat} {a : α}
    (h : xs[i]? = some a) : i < xs.length := by
  rcases Nat.lt_or_ge i xs.length with hlt | hge
  · exact hlt
  · rw [List.getElem?_eq_none hge] at h; cases h

theorem supertype_chain_eq (e : entity) : e.supertype_chain = e :: e.ancestors := by
  cases e with
  | mk n sup subs attrs d inv =>
    cases sup with
    | none => simp [entity.supertype_chain, entity.ancestors]
    | some s => simp [entity.supertype_chain, entity.ancestors]

/-- The flattened attributes are the own attributes of the levels of the supertype chain. -/
theorem mem_all_attributes_iff (a : Nat) :
    ∀ (e : entity), a ∈ e.all_attributes ↔ ∃ x ∈ e.supertype_chain, a ∈ x.attributes
  | .mk _ (some s) _ attributes_ _ _ => by
      simp only [entity.all_attributes, entity.supertype_chain, List.mem_append,
        List.mem_cons, exists_eq_or_imp, entity.attributes]
      rw [mem_all_attributes_iff a s]
      exact or_comm
  | .mk _ none _ attributes_ _ _ => by
      simp [entity.all_attributes, entity.supertype_chain, entity.attributes]

/-! ## Attribute flattening and index resolution -/

/-- C1: for every attribute pointer `A` occurring in `all_attributes(E)`, the identity lookup
`attribute_index(E, A)` is a valid position of the flattened list, and the flattened list holds
`A` at that position. -/
theorem attribute_index_valid (e : entity) (A : Nat) (hA : A ∈ e.all_attributes) :
    0 ≤ e.attribute_index A ∧ e.attribute_index A < e.all_attributes.length ∧
      e.all_attributes[(e.attribute_index A).toNat]? = some A := by
  unfold entity.attribute_index
  rw [attribute_index_loop_eq_walk]
  rcases index_walk_spec (fun x => x == A) e with ⟨_, h2⟩ | ⟨i, h1, a, ha, hp⟩
  · have := h2 A hA
    simp at this
  · have hi := getElem?_lt_length ha
    have haA : a = A := by simpa using hp
    rw [h1]
    refine ⟨by omega, by omega, ?_⟩
    simpa [haA] using ha

theorem attribute_index_valid_witness :
    (11 ∈ example_Derived.all_attributes) ∧
      (0 ≤ example_Derived.attribute_index 11 ∧
        example_Derived.attribute_index 11 < example_Derived.all_attributes.length ∧
        example_Derived.all_attributes[(example_Derived.attribute_index 11).toNat]? = some 11) :=
  ⟨by decide, attribute_index_valid example_Derived 11 (by decide)⟩

/-- C2: `all_attributes(E)` is `all_attributes(supertype(E))` followed by the own attributes of
`E` (the own attributes alone without a supertype); the lengths add up; and for `Base` with own
`[a]` and `Derived` below it with own `[b]`, `all_attributes(Derived)` is `[a, b]`. -/
theorem all_attributes_flatten (e : entity) :
    (∀ s, e.supertype = some s → e.all_attributes = s.all_attributes ++ e.attributes) ∧
    (e.supertype = none → e.all_attributes = e.attributes) ∧
    (∀ s, e.supertype = some s →
      e.all_attributes.length = s.all_attributes.length + e.attributes.length) ∧
    (∀ (a b code1 code2 : Nat) (subs1 subs2 inv1 inv2 : List Nat) (d1 d2 : List Bool),
      (entity.mk code2 (some (entity.mk code1 none subs1 [a] d1 inv1)) subs2 [b] d2
        inv2).all_attributes = [a, b]) := by
  cases e with
  | mk n sup subs attrs d inv =>
    cases sup with
    | none => simp [entity.supertype, entity.all_attributes, entity.attributes]
    | some s0 => simp [entity.supertype, entity.all_attributes, entity.attributes]

theorem all_attributes_flatten_witness :
    example_Derived.all_attributes = example_Base.all_attributes ++ example_Derived.attributes ∧
      example_Base.all_attributes = example_Base.attributes ∧
      example_Derived.all_attributes.length
        = example_Base.all_attributes.length + example_Derived.attributes.length :=
  ⟨(all_attributes_flatten example_Derived).1 example_Base rfl,
   (all_attributes_flatten example_Base).2.1 rfl,
   (all_attributes_flatten example_Derived).2.2.1 example_Base rfl⟩

/-- C3 as stated fails: in `example_Derived` the attributes `10` (inherited) and `11` (own) share
the name `x`; the lookup of `10` by identity gives `0`, the lookup by its name gives `1`. -/
theorem attribute_index_name_disagrees :
    10 ∈ example_Derived.all_attributes ∧
      example_Derived.attribute_index 10 = 0 ∧
      example_Derived.attribute_index_name example_attributes (example_attributes 10).name = 1 ∧
      example_Derived.attribute_index_name example_attributes (example_attributes 10).name
        ≠ example_Derived.attribute_index 10 := by
  decide

/-- C3 amended: for every attribute `A` occurring in `all_attributes(E)` whose name is carried
by no other attribute of `all_attributes(E)`, the lookup by name and the lookup by identity
agree. -/
theorem attribute_index_name_agrees (mem : Nat → entity_attribute) (e : entity) (A : Nat)
    (_hA : A ∈ e.all_attributes)
    (huniq : ∀ B ∈ e.all_attributes, (mem B).name = (mem A).name → B = A) :
    e.attribute_index_name mem (mem A).name = e.attribute_index A := by
  unfold entity.attribute_index_name entity.attribute_index
  rw [attribute_index_loop_eq_walk, attribute_index_name_loop_eq_walk]
  apply index_walk_congr
  intro B hB
  by_cases hBA : B = A
  · subst hBA; simp [attribute_by_name_cmp]
  · have hne : (mem B).name ≠ (mem A).name := fun hc => hBA (huniq B hB hc)
    simp [attribute_by_name_cmp, hne, hBA]

theorem attribute_index_name_agrees_witness :
    12 ∈ example_Named.all_attributes ∧
      (∀ B ∈ example_Named.all_attributes,
        (example_attributes B).name = (example_attributes 12).name → B = 12) ∧
      example_Named.attribute_index_name example_attributes (example_attributes 12).name
        = example_Named.attribute_index 12 :=
  ⟨by decide, by decide,
    attribute_index_name_agrees example_attributes example_Named 12 (by decide) (by decide)⟩

/-- The walk never ends below `-1`, and ends at `-1` exactly when no flattened attribute
satisfies the predicate. -/
theorem index_walk_eq_neg_one_iff (pred : Nat → Bool) (e : entity) :
    (e.index_walk pred (-1) = -1 ↔ ∀ a ∈ e.all_attributes, pred a = false) ∧
      (e.index_walk pred (-1) ≠ -1 → 0 ≤ e.index_walk pred (-1)) := by
  rcases index_walk_spec pred e with ⟨h1, h2⟩ | ⟨i, h1, a, ha, hp⟩
  · exact ⟨⟨fun _ => h2, fun _ => h1⟩, fun h => absurd h1 h⟩
  · refine ⟨⟨fun h => ?_, fun h => ?_⟩, fun _ => by omega⟩
    · omega
    · have hmem : a ∈ e.all_attributes := List.getElem?_mem ha
      rw [h a hmem] at hp
      cases hp

/-- C4: `attribute_index` returns `-1` exactly when the probe is found nowhere in the chain:
by identity, when `A` is an own attribute of neither `E` nor an ancestor; by name, when no own
attribute of `E` or of an ancestor has a name equal to `n`; every other result is `≥ 0`. -/
theorem attribute_index_eq_neg_one_iff (mem : Nat → entity_attribute) (e : entity) (A : Nat)
    (n : std_string) :
    (e.attribute_index A = -1 ↔ ∀ x ∈ e.supertype_chain, A ∉ x.attributes) ∧
    (e.attribute_index_name mem n = -1 ↔
      ∀ x ∈ e.supertype_chain, ∀ a ∈ x.attributes, (mem a).name ≠ n) ∧
    (e.attribute_index A ≠ -1 → 0 ≤ e.attribute_index A) ∧
    (e.attribute_index_name mem n ≠ -1 → 0 ≤ e.attribute_index_name mem n) := by
  unfold entity.attribute_index entity.attribute_index_name
  rw [attribute_index_loop_eq_walk, attribute_index_name_loop_eq_walk]
  refine ⟨?_, ?_, (index_walk_eq_neg_one_iff _ e).2, (index_walk_eq_neg_one_iff _ e).2⟩
  · rw [(index_walk_eq_neg_one_iff _ e).1]
    constructor
    · intro h x hx hAx
      have := h A ((mem_all_attributes_iff A e).mpr ⟨x, hx, hAx⟩)
      simp at this
    · intro h a ha
      obtain ⟨x, hx, hax⟩ := (mem_all_attributes_iff a e).mp ha
      by_cases haA : a = A
      · subst haA; exact absurd hax (h x hx)
      · simpa using haA
  · rw [(index_walk_eq_neg_one_iff _ e).1]
    constructor
    · intro h x hx a hax
      have := h a ((mem_all_attributes_iff a e).mpr ⟨x, hx, hax⟩)
      simpa [attribute_by_name_cmp] using this
    · intro h a ha
      obtain ⟨x, hx, hax⟩ := (mem_all_attributes_iff a e).mp ha
      simpa [attribute_by_name_cmp] using h x hx a hax

theorem attribute_index_eq_neg_one_iff_witness :
    (example_Derived.attribute_index 10 ≠ -1 ∧ 0 ≤ example_Derived.attribute_index 10) ∧
    (example_Derived.attribute_index_name example_attributes "x".toList ≠ -1 ∧
      0 ≤ example_Derived.attribute_index_name example_attributes "x".toList) ∧
    ((∀ x ∈ example_Derived.supertype_chain, 12 ∉ x.attributes) ∧
      example_Derived.attribute_index 12 = -1) ∧
    ((∀ x ∈ example_Derived.supertype_chain, ∀ a ∈ x.attributes,
        (example_attributes a).name ≠ "X".toList) ∧
      example_Derived.attribute_index_name example_attributes "X".toList = -1) :=
  ⟨⟨by decide,
      (attribute_index_eq_neg_one_iff example_attributes example_Derived 10 "x".toList).2.2.1
        (by decide)⟩,
    ⟨by decide,
      (attribute_index_eq_neg_one_iff example_attributes example_Derived 10 "x".toList).2.2.2
        (by decide)⟩,
    ⟨by decide,
      (attribute_index_eq_neg_one_iff example_attributes example_Derived 12 "x".toList).1.mpr
        (by decide)⟩,
    ⟨by decide,
      (attribute_index_eq_neg_one_iff example_attributes example_Derived 12 "X".toList).2.1.mpr
        (by decide)⟩⟩

/-- C5: when the lookup by name returns `i ≥ 0`, `i` is a position of `all_attributes(E)` and
the attribute at that position has exactly the name `n`; the comparison is exact, so a probe
that equals no attribute name of the chain character for character (for instance one that
differs only by letter case) yields `-1`. -/
theorem attribute_index_name_exact (mem : Nat → entity_attribute) (e : entity) (n : std_string) :
    (0 ≤ e.attribute_index_name mem n →
      e.attribute_index_name mem n < e.all_attributes.length ∧
      ∃ a, e.all_attributes[(e.attribute_index_name mem n).toNat]? = some a ∧
        (mem a).name = n) ∧
    ((∀ a ∈ e.all_attributes,
        (mem a).name ≠ n ∧ to_lower_copy (mem a).name = to_lower_copy n) →
      e.attribute_index_name mem n = -1) := by
  unfold entity.attribute_index_name
  rw [attribute_index_name_loop_eq_walk]
  rcases index_walk_spec (attribute_by_name_cmp mem n) e with ⟨h1, h2⟩ | ⟨i, h1, a, ha, hp⟩
  · rw [h1]
    exact ⟨fun h => by omega, fun _ => rfl⟩
  · rw [h1]
    have hi := getElem?_lt_length ha
    have hn : (mem a).name = n := by simpa [attribute_by_name_cmp] using hp
    refine ⟨fun _ => ⟨by omega, a, by simpa using ha, hn⟩, fun h => ?_⟩
    exact absurd hn (h a (List.getElem?_mem ha)).1

theorem attribute_index_name_exact_witness :
    (0 ≤ example_Named.attribute_index_name example_attributes "Name".toList ∧
      example_Named.attribute_index_name example_attributes "Name".toList
        < example_Named.all_attributes.length ∧
      ∃ a, example_Named.all_attributes[(example_Named.attribute_index_name example_attributes
          "Name".toList).toNat]? = some a ∧ (example_attributes a).name = "Name".toList) ∧
    ((∀ a ∈ [12], (example_attributes a).name ≠ "name".toList ∧
        to_lower_copy (example_attributes a).name = to_lower_copy "name".toList) ∧
      (entity.mk 3 none [] [12] [false] []).attribute_index_name example_attributes
        "name".toList = -1) :=
  ⟨⟨by decide,
      (attribute_index_name_exact example_attributes example_Named "Name".toList).1 (by decide)⟩,
    ⟨by decide,
      (attribute_index_name_exact example_attributes (entity.mk 3 none [] [12] [false] [])
        "name".toList).2 (by decide)⟩⟩

/-! ## The `is` query -/

theorem is_iff_mem_chain (C : Nat) :
    ∀ (e : entity), e.is C = true ↔ ∃ x ∈ e.supertype_chain, C = x.type
  | .mk name_ (some s) _ _ _ _ => by
      have ih := is_iff_mem_chain C s
      simp only [entity.is, entity.supertype_chain, List.mem_cons, exists_eq_or_imp]
      rw [← ih]
      by_cases h : C = name_ <;> simp [h, entity.type]
  | .mk name_ none _ _ _ _ => by
      simp [entity.is, entity.supertype_chain, entity.type]

/-- C6: `is(E, C)` is true exactly when `C` is the type code of `E` or of an entity on its
supertype chain; so `is(E, code(E))` is true, `is(E, C)` is true for the code of every proper
ancestor, and `is(E, D)` is false for a code that is neither that of `E` nor of an ancestor. -/
theorem entity_is_iff (e : entity) :
    (∀ C, e.is C = true ↔ (C = e.type ∨ ∃ x ∈ e.ancestors, C = x.type)) ∧
    e.is e.type = true ∧
    (∀ x ∈ e.ancestors, e.is x.type = true) ∧
    (∀ D, D ≠ e.type → (∀ x ∈ e.ancestors, D ≠ x.type) → e.is D = false) := by
  have key : ∀ C, e.is C = true ↔ (C = e.type ∨ ∃ x ∈ e.ancestors, C = x.type) := by
    intro C
    rw [is_iff_mem_chain C e, supertype_chain_eq]
    simp
  refine ⟨key, (key _).mpr (Or.inl rfl), fun x hx => (key _).mpr (Or.inr ⟨x, hx, rfl⟩), ?_⟩
  intro D hD hanc
  cases hval : e.is D with
  | false => rfl
  | true =>
    rcases (key D).mp hval with h | ⟨x, hx, h⟩
    · exact absurd h hD
    · exact absurd h (hanc x hx)

theorem entity_is_iff_witness :
    (example_Derived.is 0 = true ∧ example_Derived.is 1 = true) ∧
    ((5 ≠ example_Derived.type ∧ ∀ x ∈ example_Derived.ancestors, 5 ≠ x.type) ∧
      example_Derived.is 5 = false) :=
  ⟨⟨(entity_is_iff example_Derived).2.2.1 example_Base (by simp [example_Derived, entity.ancestors, example_Base, entity.supertype_chain]),
      (entity_is_iff example_Derived).2.1⟩,
    ⟨⟨by decide, by decide⟩,
      (entity_is_iff example_Derived).2.2.2 5 (by decide) (by decide)⟩⟩

/-! ## Construction of a schema definition -/

theorem sort_insert_perm {α : Type} (comp : α → α → Bool) (x : α) (xs : List α) :
    (sort_insert comp x xs).Perm (x :: xs) := by
  induction xs with
  | nil => exact List.Perm.refl _
  | cons y ys ih =>
    simp only [sort_insert]
    split
    · exact List.Perm.refl _
    · exact (List.Perm.cons y ih).trans (List.Perm.swap x y ys)

theorem std_sort_perm {α : Type} (comp : α → α → Bool) (xs : List α) :
    (std_sort comp xs).Perm xs := by
  induction xs with
  | nil => exact List.Perm.refl _
  | cons x xs ih =>
    simp only [std_sort]
    exact (sort_insert_perm comp x _).trans (List.Perm.cons x ih)

theorem sort_insert_sorted {α : Type} (key : α → Nat) (x : α) (xs : List α)
    (h : xs.Pairwise (fun a b => key a ≤ key b)) :
    (sort_insert (fun a b => decide (key a < key b)) x xs).Pairwise
      (fun a b => key a ≤ key b) := by
  induction xs with
  | nil => simp [sort_insert]
  | cons y ys ih =>
    simp only [sort_insert]
    rw [List.pairwise_cons] at h
    by_cases hxy : key x < key y
    · simp only [hxy, decide_True, if_true]
      refine List.pairwise_cons.mpr ⟨?_, List.pairwise_cons.mpr h⟩
      intro b hb
      rcases List.mem_cons.mp hb with hb | hb
      · subst hb; omega
      · have := h.1 b hb; omega
    · simp only [hxy, decide_False, Bool.false_eq_true, if_false]
      refine List.pairwise_cons.mpr ⟨?_, ih h.2⟩
      intro b hb
      rcases List.mem_cons.mp ((sort_insert_perm _ x ys).subset hb) with hb | hb
      · subst hb; omega
      · exact h.1 b hb

theorem std_sort_sorted {α : Type} (key : α → Nat) (xs : List α) :
    (std_sort (fun a b => decide (key a < key b)) xs).Pairwise (fun a b => key a ≤ key b) := by
  induction xs with
  | nil => simp [std_sort]
  | cons x xs ih => exact sort_insert_sorted key x _ ih

/-- The loop of the constructor appends to each view the pointers of its kind, in order, and
leaves the other members alone. -/
theorem foldl_loop_body (mem : Nat → declaration) (xs : List Nat) :
    ∀ (S : schema_definition),
      xs.foldl (schema_definition.loop_body mem) S =
        schema_definition.mk S.built_in_ S.name_ S.declarations_
          (S.type_declarations_ ++ xs.filter (fun p => (as_type_declaration mem p).isSome))
          (S.select_types_ ++ xs.filter (fun p => (as_select_type mem p).isSome))
          (S.enumeration_types_ ++ xs.filter (fun p => (as_enumeration_type mem p).isSome))
          (S.entities_ ++ xs.filter (fun p => (as_entity mem p).isSome)) := by
  induction xs with
  | nil => intro S; simp
  | cons x xs ih =>
    intro S
    rw [List.foldl_cons, ih]
    simp only [schema_definition.loop_body, as_type_declaration, as_select_type,
      as_enumeration_type, as_entity, push_back_if, List.filter_cons]
    cases mem x <;> simp

theorem declarations_of_construct (mem : Nat → declaration) (name : std_string)
    (declarations : List Nat) (built_in : Bool) :
    (schema_definition.construct mem name declarations built_in).declarations =
      std_sort (declaration_by_enum_sort mem) declarations := by
  simp [schema_definition.construct, foldl_loop_body, schema_definition.declarations]

/-- C7: the constructor leaves `declarations()` as a permutation of the input list (same
elements with the same multiplicity, same length) that is sorted by type code, ascending. -/
theorem construct_declarations_sorted_perm (mem : Nat → declaration) (name : std_string)
    (declarations : List Nat) (built_in : Bool) :
    ((schema_definition.construct mem name declarations built_in).declarations).Perm
        declarations ∧
    (∀ p, ((schema_definition.construct mem name declarations built_in).declarations).count p
        = declarations.count p) ∧
    ((schema_definition.construct mem name declarations built_in).declarations).length
        = declarations.length ∧
    ((schema_definition.construct mem name declarations built_in).declarations).Pairwise
        (fun a b => (mem a).type ≤ (mem b).type) := by
  rw [declarations_of_construct]
  have hperm := std_sort_perm (declaration_by_enum_sort mem) declarations
  exact ⟨hperm, fun p => hperm.count_eq p, hperm.length_eq,
    std_sort_sorted (fun p => (mem p).type) declarations⟩

theorem construct_eq_filters (mem : Nat → declaration) (name : std_string)
    (declarations : List Nat) (built_in : Bool) :
    schema_definition.construct mem name declarations built_in =
      schema_definition.mk built_in name (std_sort (declaration_by_enum_sort mem) declarations)
        ((std_sort (declaration_by_enum_sort mem) declarations).filter
          (fun p => (as_type_declaration mem p).isSome))
        ((std_sort (declaration_by_enum_sort mem) declarations).filter
          (fun p => (as_select_type mem p).isSome))
        ((std_sort (declaration_by_enum_sort mem) declarations).filter
          (fun p => (as_enumeration_type mem p).isSome))
        ((std_sort (declaration_by_enum_sort mem) declarations).filter
          (fun p => (as_entity mem p).isSome)) := by
  simp [schema_definition.construct, foldl_loop_body]

theorem filter_kinds_length (mem : Nat → declaration) (xs : List Nat) :
    (xs.filter (fun p => (as_type_declaration mem p).isSome)).length
      + (xs.filter (fun p => (as_select_type mem p).isSome)).length
      + (xs.filter (fun p => (as_enumeration_type mem p).isSome)).length
      + (xs.filter (fun p => (as_entity mem p).isSome)).length
      + (xs.filter (fun p => (mem p).is_plain)).length = xs.length := by
  induction xs with
  | nil => simp
  | cons x xs ih =>
    simp only [List.filter_cons, as_type_declaration, as_select_type, as_enumeration_type,
      as_entity, declaration.is_plain] at ih ⊢
    cases mem x <;> simp <;> omega

/-- C8 as stated fails: a schema built from the type declaration `100` and the base-class
object `104` lists `104` in `declarations()` and in none of the four views, so the four lengths
sum to `1` while `declarations()` has `2` elements. -/
theorem construct_views_miss_base_object :
    104 ∈ (schema_definition.construct example_declarations "s".toList [104, 100]
        false).declarations ∧
    (∀ v ∈ (schema_definition.construct example_declarations "s".toList [104, 100]
        false).views, 104 ∉ v) ∧
    (schema_definition.construct example_declarations "s".toList [104, 100]
        false).type_declarations.length
      + (schema_definition.construct example_declarations "s".toList [104, 100]
        false).select_types.length
      + (schema_definition.construct example_declarations "s".toList [104, 100]
        false).enumeration_types.length
      + (schema_definition.construct example_declarations "s".toList [104, 100]
        false).entities.length
      ≠ (schema_definition.construct example_declarations "s".toList [104, 100]
        false).declarations.length := by
  decide

/-- C8 amended: after construction each of the four views is the sub-sequence of
`declarations()` made of the declarations of its kind, in the same relative order; an element
of `declarations()` that is an object of one of the four subclasses appears in exactly one
view, an object of the base class in none; so the four lengths and the number of base-class
objects sum to `len(declarations())`, and the four lengths alone do when every declaration
is of one of the four subclasses. -/
theorem construct_views (mem : Nat → declaration) (name : std_string)
    (declarations : List Nat) (built_in : Bool) :
    ((schema_definition.construct mem name declarations built_in).type_declarations
        = (schema_definition.construct mem name declarations built_in).declarations.filter
            (fun p => (as_type_declaration mem p).isSome) ∧
      (schema_definition.construct mem name declarations built_in).select_types
        = (schema_definition.construct mem name declarations built_in).declarations.filter
            (fun p => (as_select_type mem p).isSome) ∧
      (schema_definition.construct mem name declarations built_in).enumeration_types
        = (schema_definition.construct mem name declarations built_in).declarations.filter
            (fun p => (as_enumeration_type mem p).isSome) ∧
      (schema_definition.construct mem name declarations built_in).entities
        = (schema_definition.construct mem name declarations built_in).declarations.filter
            (fun p => (as_entity mem p).isSome)) ∧
    (∀ p ∈ (schema_definition.construct mem name declarations built_in).declarations,
      (mem p).is_plain = false →
      ((schema_definition.construct mem name declarations built_in).views.filter
        (fun v => decide (p ∈ v))).length = 1) ∧
    (∀ p ∈ (schema_definition.construct mem name declarations built_in).declarations,
      (mem p).is_plain = true →
      ∀ v ∈ (schema_definition.construct mem name declarations built_in).views, p ∉ v) ∧
    ((schema_definition.construct mem name declarations built_in).type_declarations.length
      + (schema_definition.construct mem name declarations built_in).select_types.length
      + (schema_definition.construct mem name declarations built_in).enumeration_types.length
      + (schema_definition.construct mem name declarations built_in).entities.length
      + ((schema_definition.construct mem name declarations built_in).declarations.filter
          (fun p => (mem p).is_plain)).length
      = (schema_definition.construct mem name declarations built_in).declarations.length) ∧
    ((∀ p ∈ declarations, (mem p).is_plain = false) →
      (schema_definition.construct mem name declarations built_in).type_declarations.length
      + (schema_definition.construct mem name declarations built_in).select_types.length
      + (schema_definition.construct mem name declarations built_in).enumeration_types.length
      + (schema_definition.construct mem name declarations built_in).entities.length
      = (schema_definition.construct mem name declarations built_in).declarations.length) := by
  rw [construct_eq_filters]
  simp only [schema_definition.type_declarations, schema_definition.select_types,
    schema_definition.enumeration_types, schema_definition.entities,
    schema_definition.declarations, schema_definition.views]
  generalize hxs : std_sort (declaration_by_enum_sort mem) declarations = xs
  have hsub : ∀ p ∈ xs, p ∈ declarations := by
    intro p hp
    rw [← hxs] at hp
    exact (std_sort_perm _ declarations).subset hp
  refine ⟨by simp, ?_, ?_, filter_kinds_length mem xs, ?_⟩
  · intro p hp hplain
    simp only [List.filter_cons, List.filter_nil, List.mem_filter, hp, true_and,
      as_type_declaration, as_select_type, as_enumeration_type, as_entity, decide_eq_true_eq]
    cases hm : mem p <;> simp_all [declaration.is_plain]
  · intro p hp hplain v hv
    simp only [List.mem_cons, List.mem_singleton, List.not_mem_nil, or_false] at hv
    rcases hv with hv | hv | hv | hv <;> subst hv <;>
      simp only [List.mem_filter, as_type_declaration, as_select_type, as_enumeration_type,
        as_entity, not_and] <;>
      cases hm : mem p <;> simp_all [declaration.is_plain]
  · intro hall
    have h0 : xs.filter (fun p => (mem p).is_plain) = [] := by
      rw [List.filter_eq_nil_iff]
      intro p hp
      simp [hall p (hsub p hp)]
    have := filter_kinds_length mem xs
    rw [h0] at this
    simpa using this

theorem construct_views_witness :
    (∀ p ∈ [103, 101, 100, 102], (example_declarations p).is_plain = false) ∧
    ((schema_definition.construct example_declarations "s".toList [103, 101, 100, 102]
        false).type_declarations.length
      + (schema_definition.construct example_declarations "s".toList [103, 101, 100, 102]
        false).select_types.length
      + (schema_definition.construct example_declarations "s".toList [103, 101, 100, 102]
        false).enumeration_types.length
      + (schema_definition.construct example_declarations "s".toList [103, 101, 100, 102]
        false).entities.length
      = (schema_definition.construct example_declarations "s".toList [103, 101, 100, 102]
        false).declarations.length) ∧
    ((schema_definition.construct example_declarations "s".toList [103, 101, 100, 102]
        false).views.filter (fun v => decide (101 ∈ v))).length = 1 ∧
    ((example_declarations 104).is_plain = true ∧
      ∀ v ∈ (schema_definition.construct example_declarations "s".toList [104, 100]
        false).views, 104 ∉ v) :=
  ⟨by decide,
    (construct_views example_declarations "s".toList [103, 101, 100, 102] false).2.2.2.2
      (by decide),
    (construct_views example_declarations "s".toList [103, 101, 100, 102] false).2.1 101
      (by decide) (by decide),
    by decide,
    (construct_views example_declarations "s".toList [104, 100] false).2.2.1 104
      (by decide) (by decide)⟩

/-! ## Binary search and lookup by name -/

/-- Any fuel of at least `len` gives the same result: the loop ends because `len` reaches `0`,
never because the fuel does. -/
theorem std_lower_bound_loop_fuel {α β : Type} (comp : α → β → Bool) (xs : List α) (val : β) :
    ∀ (fuel fuel2 first len : Nat), len ≤ fuel → len ≤ fuel2 →
      std_lower_bound_loop comp xs val fuel first len
        = std_lower_bound_loop comp xs val fuel2 first len := by
  intro fuel
  induction fuel with
  | zero =>
    intro fuel2 first len h1 _
    have hlen : len = 0 := by omega
    subst hlen
    cases fuel2 <;> simp [std_lower_bound_loop]
  | succ fuel ih =>
    intro fuel2 first len h1 h2
    cases fuel2 with
    | zero =>
      have hlen : len = 0 := by omega
      subst hlen
      simp [std_lower_bound_loop]
    | succ fuel2 =>
      simp only [std_lower_bound_loop]
      by_cases hlen : 0 < len
      · rw [if_pos hlen, if_pos hlen]
        cases xs[first + len / 2]? with
        | none => rfl
        | some middle =>
          simp only
          rw [ih fuel2 (first + len / 2 + 1) (len - len / 2 - 1) (by omega) (by omega),
            ih fuel2 first (len / 2) (by omega) (by omega)]
      · rw [if_neg hlen, if_neg hlen]

/-- On a vector partitioned at `k` with respect to `comp · val`, the loop started on a range
that contains `k` ends at `k`. -/
theorem std_lower_bound_loop_spec {α β : Type} (comp : α → β → Bool) (xs : List α) (val : β)
    (k : Nat)
    (hlo : ∀ i m, i < k → xs[i]? = some m → comp m val = true)
    (hhi : ∀ i m, k ≤ i → xs[i]? = some m → comp m val = false) :
    ∀ (fuel first len : Nat), len ≤ fuel → first ≤ k → k ≤ first + len →
      first + len ≤ xs.length → std_lower_bound_loop comp xs val fuel first len = k := by
  intro fuel
  induction fuel with
  | zero =>
    intro first len h0 h1 h2 _
    simp only [std_lower_bound_loop]
    omega
  | succ fuel ih =>
    intro first len h0 h1 h2 h3
    simp only [std_lower_bound_loop]
    by_cases hlen : 0 < len
    · rw [if_pos hlen]
      have hmid : first + len / 2 < xs.length := by omega
      have hget : xs[first + len / 2]? = some xs[first + len / 2] :=
        List.getElem?_eq_getElem hmid
      rw [hget]
      simp only
      by_cases hc : comp xs[first + len / 2] val = true
      · rw [if_pos hc]
        have hk : first + len / 2 + 1 ≤ k := by
          by_contra hcon
          have := hhi (first + len / 2) _ (by omega) hget
          rw [this] at hc
          cases hc
        exact ih _ _ (by omega) hk (by omega) (by omega)
      · rw [if_neg hc]
        have hk : k ≤ first + len / 2 := by
          by_contra hcon
          exact hc (hlo (first + len / 2) _ (by omega) hget)
        exact ih _ _ (by omega) h1 hk (by omega)
    · rw [if_neg hlen]
      omega

theorem std_lower_bound_spec {α β : Type} (comp : α → β → Bool) (xs : List α) (val : β)
    (k : Nat) (hk : k ≤ xs.length)
    (hlo : ∀ i m, i < k → xs[i]? = some m → comp m val = true)
    (hhi : ∀ i m, k ≤ i → xs[i]? = some m → comp m val = false) :
    std_lower_bound comp xs val = k :=
  std_lower_bound_loop_spec comp xs val k hlo hhi xs.length 0 xs.length (Nat.le_refl _)
    (Nat.zero_le _) (by omega) (by omega)

/-- On a declaration list whose lower-cased names increase strictly, the lookup by a string
with the lower-cased form of the name of `D` returns `D`. -/
theorem declaration_by_name_of_sorted (Type_ToString : Nat → std_string)
    (mem : Nat → declaration) (S : schema_definition)
    (hnames : S.declarations_.Pairwise
      (fun a b => lower_name Type_ToString mem a < lower_name Type_ToString mem b))
    (D : Nat) (hD : D ∈ S.declarations_) (q : std_string)
    (hq : to_lower_copy q = lower_name Type_ToString mem D) :
    S.declaration_by_name Type_ToString mem q = Except.ok D := by
  obtain ⟨k, hk⟩ := List.mem_iff_getElem?.mp hD
  have hklt := getElem?_lt_length hk
  have hkD : S.declarations_[k] = D := by
    rw [List.getElem?_eq_getElem hklt] at hk
    exact Option.some.inj hk
  rw [List.pairwise_iff_getElem] at hnames
  have hlb : std_lower_bound (declaration_by_name_cmp Type_ToString mem) S.declarations_ q
      = k := by
    apply std_lower_bound_spec _ _ _ k (Nat.le_of_lt hklt)
    · intro i m hi hm
      have hilt := getElem?_lt_length hm
      have him : S.declarations_[i] = m := by
        rw [List.getElem?_eq_getElem hilt] at hm
        exact Option.some.inj hm
      have := hnames i k hilt hklt hi
      rw [him, hkD] at this
      simp only [declaration_by_name_cmp, decide_eq_true_eq, hq]
      exact this
    · intro i m hi hm
      have hilt := getElem?_lt_length hm
      have him : S.declarations_[i] = m := by
        rw [List.getElem?_eq_getElem hilt] at hm
        exact Option.some.inj hm
      simp only [declaration_by_name_cmp, decide_eq_false_iff_not, hq]
      rcases Nat.eq_or_lt_of_le hi with heq | hlt
      · subst heq
        rw [← him, hkD]
        exact lt_irrefl _
      · have := hnames k i hklt hilt hlt
        rw [him, hkD] at this
        exact lt_asymm this
  unfold schema_definition.declaration_by_name
  simp only [hlb, hk]
  rw [if_neg]
  simp only [ne_eq, not_not]
  exact hq.symm

/-- C9 as stated fails: with a registry that names the codes `0`, `1`, `2` `IfcWall`, `IfcBeam`,
`IfcSlab`, the schema built from three declarations with these distinct codes holds the
declaration `100` of code `0`, and the lookup of its own name throws the not-found error:
the binary search over the code-sorted list steps past it. -/
theorem declaration_by_name_misses_own_name :
    ([100, 101, 102].map (fun p => (example_declarations p).type)).Nodup ∧
    100 ∈ (schema_definition.construct example_declarations "s".toList [100, 101, 102]
        false).declarations ∧
    (schema_definition.construct example_declarations "s".toList [100, 101, 102]
        false).declaration_by_name example_registry_unordered example_declarations
        ((example_declarations 100).name example_registry_unordered)
      = Except.error (not_found_message "IfcWall".toList) :=
  ⟨by decide, by decide, rfl⟩

/-- C9 amended: for every schema definition built from declarations with pairwise distinct type
codes whose lower-cased names increase strictly along the code-sorted `declarations()`, and
every declaration `D` in `declarations()`, `declaration_by_name(name(D))` succeeds and
returns `D`. -/
theorem declaration_by_name_round_trip (Type_ToString : Nat → std_string)
    (mem : Nat → declaration) (name : std_string) (declarations : List Nat) (built_in : Bool)
    (_hcodes : (declarations.map (fun p => (mem p).type)).Nodup)
    (hnames : (schema_definition.construct mem name declarations built_in).declarations.Pairwise
      (fun a b => lower_name Type_ToString mem a < lower_name Type_ToString mem b))
    (D : Nat)
    (hD : D ∈ (schema_definition.construct mem name declarations built_in).declarations) :
    (schema_definition.construct mem name declarations built_in).declaration_by_name
        Type_ToString mem ((mem D).name Type_ToString) = Except.ok D :=
  declaration_by_name_of_sorted Type_ToString mem _ hnames D hD _ rfl

theorem declaration_by_name_round_trip_witness :
    ([102, 100, 103, 101].map (fun p => (example_declarations p).type)).Nodup ∧
    (schema_definition.construct example_declarations "s".toList [102, 100, 103, 101]
        false).declarations.Pairwise
      (fun a b => lower_name example_registry_ordered example_declarations a
        < lower_name example_registry_ordered example_declarations b) ∧
    102 ∈ (schema_definition.construct example_declarations "s".toList [102, 100, 103, 101]
        false).declarations ∧
    (schema_definition.construct example_declarations "s".toList [102, 100, 103, 101]
        false).declaration_by_name example_registry_ordered example_declarations
        ((example_declarations 102).name example_registry_ordered) = Except.ok 102 :=
  ⟨by decide, by decide, by decide,
    declaration_by_name_round_trip example_registry_ordered example_declarations "s".toList
      [102, 100, 103, 101] false (by decide) (by decide) 102 (by decide)⟩

/-- C10: when the lower-cased names of the declarations increase strictly along the code-sorted
`declarations()` list, then for every declaration `D` of the schema and every string `q` whose
lower-cased form equals the lower-cased `name(D)`, `declaration_by_name(q)` returns `D`. -/
theorem declaration_by_name_case_insensitive (Type_ToString : Nat → std_string)
    (mem : Nat → declaration) (name : std_string) (declarations : List Nat) (built_in : Bool)
    (hnames : (schema_definition.construct mem name declarations built_in).declarations.Pairwise
      (fun a b => to_lower_copy ((mem a).name Type_ToString)
        < to_lower_copy ((mem b).name Type_ToString)))
    (D : Nat)
    (hD : D ∈ (schema_definition.construct mem name declarations built_in).declarations)
    (q : std_string)
    (hq : to_lower_copy q = to_lower_copy ((mem D).name Type_ToString)) :
    (schema_definition.construct mem name declarations built_in).declaration_by_name
        Type_ToString mem q = Except.ok D :=
  declaration_by_name_of_sorted Type_ToString mem _ hnames D hD q hq

theorem declaration_by_name_case_insensitive_witness :
    (schema_definition.construct example_declarations "s".toList [104, 102, 100, 103, 101]
        false).declarations.Pairwise
      (fun a b => to_lower_copy ((example_declarations a).name example_registry_ordered)
        < to_lower_copy ((example_declarations b).name example_registry_ordered)) ∧
    103 ∈ (schema_definition.construct example_declarations "s".toList
        [104, 102, 100, 103, 101] false).declarations ∧
    to_lower_copy "IFCWINDOW".toList
      = to_lower_copy ((example_declarations 103).name example_registry_ordered) ∧
    (schema_definition.construct example_declarations "s".toList [104, 102, 100, 103, 101]
        false).declaration_by_name example_registry_ordered example_declarations
        "IFCWINDOW".toList = Except.ok 103 :=
  ⟨by decide, by decide, by decide,
    declaration_by_name_case_insensitive example_registry_ordered example_declarations
      "s".toList [104, 102, 100, 103, 101] false (by decide) 103 (by decide)
      "IFCWINDOW".toList (by decide)⟩

/-! ## Failure of the lookup by name -/

/-- C11: with no ordering precondition, when no declaration of the schema has a name equal to
`q` ignoring letter case, `declaration_by_name(q)` throws the not-found exception, whose message
contains `q`; and whenever the lookup succeeds, the returned declaration is an element of
`declarations()` whose lower-cased name is the lower-cased `q`.  The method is `const` and is
embedded as a function of the schema that yields only the outcome, so the declaration lists of
the schema are the same before and after in both cases. -/
theorem declaration_by_name_not_found (Type_ToString : Nat → std_string)
    (mem : Nat → declaration) (S : schema_definition) (q : std_string) :
    ((∀ d ∈ S.declarations,
        to_lower_copy ((mem d).name Type_ToString) ≠ to_lower_copy q) →
      S.declaration_by_name Type_ToString mem q = Except.error (not_found_message q) ∧
      q <:+: not_found_message q) ∧
    (∀ d, S.declaration_by_name Type_ToString mem q = Except.ok d →
      d ∈ S.declarations ∧
      to_lower_copy ((mem d).name Type_ToString) = to_lower_copy q) := by
  unfold schema_definition.declaration_by_name schema_definition.declarations
  constructor
  · intro hnone
    refine ⟨?_, ⟨"Entity with '".toList, "' not found".toList, by simp [not_found_message]⟩⟩
    cases hget : S.declarations_[std_lower_bound (declaration_by_name_cmp Type_ToString mem)
        S.declarations_ q]? with
    | none => simp only [hget]
    | some d =>
      simp only [hget]
      rw [if_pos (hnone d (List.getElem?_mem hget))]
  · intro d hd
    cases hget : S.declarations_[std_lower_bound (declaration_by_name_cmp Type_ToString mem)
        S.declarations_ q]? with
    | none =>
      simp only [hget] at hd
      cases hd
    | some d2 =>
      simp only [hget] at hd
      by_cases hne : to_lower_copy ((mem d2).name Type_ToString) ≠ to_lower_copy q
      · rw [if_pos hne] at hd
        cases hd
      · rw [if_neg hne] at hd
        have hdd : d2 = d := by
          injection hd
        subst hdd
        exact ⟨List.getElem?_mem hget, not_not.mp hne⟩

theorem declaration_by_name_not_found_witness :
    ((∀ d ∈ (schema_definition.construct example_declarations "s".toList [102, 100, 101]
          false).declarations,
        to_lower_copy ((example_declarations d).name example_registry_unordered)
          ≠ to_lower_copy "nonexistent".toList) ∧
      (schema_definition.construct example_declarations "s".toList [102, 100, 101]
          false).declaration_by_name example_registry_unordered example_declarations
          "nonexistent".toList = Except.error (not_found_message "nonexistent".toList)) ∧
    ((schema_definition.construct example_declarations "s".toList [102, 100, 101]
          false).declaration_by_name example_registry_unordered example_declarations
          "IFCSLAB".toList = Except.ok 102 ∧
      102 ∈ (schema_definition.construct example_declarations "s".toList [102, 100, 101]
          false).declarations ∧
      to_lower_copy ((example_declarations 102).name example_registry_unordered)
        = to_lower_copy "IFCSLAB".toList) :=
  ⟨⟨by decide,
      ((declaration_by_name_not_found example_registry_unordered example_declarations
        (schema_definition.construct example_declarations "s".toList [102, 100, 101] false)
        "nonexistent".toList).1 (by decide)).1⟩,
    ⟨rfl,
      (declaration_by_name_not_found example_registry_unordered example_declarations
        (schema_definition.construct example_declarations "s".toList [102, 100, 101] false)
        "IFCSLAB".toList).2 102 rfl⟩⟩

/-! ## Lookup by type code -/

/-- When the type codes of the input are `0`, ..., `n - 1`, each once, the code-sorted list
carries the code `c` at position `c`. -/
theorem sorted_codes_eq_range (mem : Nat → declaration) (declarations : List Nat)
    (hcodes : (declarations.map (fun p => (mem p).type)).Perm (List.range declarations.length)) :
    (std_sort (declaration_by_enum_sort mem) declarations).map (fun p => (mem p).type)
      = List.range declarations.length := by
  have h1 : ((std_sort (declaration_by_enum_sort mem) declarations).map
      (fun p => (mem p).type)).Perm (List.range declarations.length) :=
    ((std_sort_perm (declaration_by_enum_sort mem) declarations).map _).trans hcodes
  have h2 : List.Sorted (fun a b : Nat => a ≤ b)
      ((std_sort (declaration_by_enum_sort mem) declarations).map (fun p => (mem p).type)) :=
    List.pairwise_map.mpr (std_sort_sorted (fun p => (mem p).type) declarations)
  have h3 : List.Sorted (fun a b : Nat => a ≤ b) (List.range declarations.length) :=
    List.sorted_le_range _
  exact List.eq_of_perm_of_sorted h1 h2 h3

/-- C12: in a built-in schema built from `n` declarations whose type codes are exactly
`0`, ..., `n - 1`, each once and in any order, the lookup by a code `c < n` returns a
declaration of the input whose `type()` is `c`; when the input is given in the order of its
codes this is the declaration at position `c` of the input, so with five declarations of the
codes `0`..`4` the lookup of code `3` returns the fourth one. -/
theorem declaration_by_name_enum_dense (mem : Nat → declaration) (name : std_string)
    (declarations : List Nat)
    (hcodes : (declarations.map (fun p => (mem p).type)).Perm (List.range declarations.length))
    (c : Nat) (hc : c < declarations.length) :
    (∃ d, (schema_definition.construct mem name declarations true).declaration_by_name_enum c
        = enum_lookup.returned d ∧ d ∈ declarations ∧ (mem d).type = c) ∧
    (declarations.map (fun p => (mem p).type) = List.range declarations.length →
      ∃ d, declarations[c]? = some d ∧
        (schema_definition.construct mem name declarations true).declaration_by_name_enum c
          = enum_lookup.returned d) := by
  have hsorted := sorted_codes_eq_range mem declarations hcodes
  have hperm := std_sort_perm (declaration_by_enum_sort mem) declarations
  have hlen : c < (std_sort (declaration_by_enum_sort mem) declarations).length := by
    rw [hperm.length_eq]; exact hc
  have hget : (std_sort (declaration_by_enum_sort mem) declarations)[c]?
      = some (std_sort (declaration_by_enum_sort mem) declarations)[c] :=
    List.getElem?_eq_getElem hlen
  have hcode : (mem (std_sort (declaration_by_enum_sort mem) declarations)[c]).type = c := by
    have h1 : ((std_sort (declaration_by_enum_sort mem) declarations).map
        (fun p => (mem p).type))[c]? = (List.range declarations.length)[c]? := by
      rw [hsorted]
    rw [List.getElem?_map, hget, List.getElem?_range hc] at h1
    exact Option.some.inj h1
  have hmem : (std_sort (declaration_by_enum_sort mem) declarations)[c] ∈ declarations :=
    hperm.subset (List.getElem?_mem hget)
  have hres : (schema_definition.construct mem name declarations true).declaration_by_name_enum c
      = enum_lookup.returned (std_sort (declaration_by_enum_sort mem) declarations)[c] := by
    rw [construct_eq_filters]
    simp only [schema_definition.declaration_by_name_enum, Bool.not_true, Bool.false_eq_true,
      if_false, hget]
  refine ⟨⟨_, hres, hmem, hcode⟩, ?_⟩
  intro horder
  obtain ⟨j, hj⟩ := List.mem_iff_getElem?.mp hmem
  have hjlt := getElem?_lt_length hj
  have hjc : j = c := by
    have h2 : (declarations.map (fun p => (mem p).type))[j]?
        = (List.range declarations.length)[j]? := by
      rw [horder]
    rw [List.getElem?_map, hj, List.getElem?_range hjlt] at h2
    have h3 : (mem (std_sort (declaration_by_enum_sort mem) declarations)[c]).type = j :=
      Option.some.inj h2
    omega
  subst hjc
  exact ⟨_, hj, hres⟩

theorem declaration_by_name_enum_dense_witness :
    (([102, 100, 104, 103, 101].map (fun p => (example_declarations p).type)).Perm
        (List.range [102, 100, 104, 103, 101].length) ∧
      ∃ d, (schema_definition.construct example_declarations "s".toList
          [102, 100, 104, 103, 101] true).declaration_by_name_enum 3 = enum_lookup.returned d ∧
        d ∈ [102, 100, 104, 103, 101] ∧ (example_declarations d).type = 3) ∧
    ([100, 101, 102, 103, 104].map (fun p => (example_declarations p).type)
        = List.range [100, 101, 102, 103, 104].length ∧
      ∃ d, [100, 101, 102, 103, 104][3]? = some d ∧
        (schema_definition.construct example_declarations "s".toList
          [100, 101, 102, 103, 104] true).declaration_by_name_enum 3
          = enum_lookup.returned d) :=
  ⟨⟨by decide,
      (declaration_by_name_enum_dense example_declarations "s".toList [102, 100, 104, 103, 101]
        (by decide) 3 (by decide)).1⟩,
    ⟨by decide,
      (declaration_by_name_enum_dense example_declarations "s".toList [100, 101, 102, 103, 104]
        (by decide) 3 (by decide)).2 (by decide)⟩⟩

/-- C13: in a schema constructed with `built_in = false`, the lookup by type code ends in
`throw;` for every code, so it returns no declaration, whether or not a declaration with that
code is in the schema. -/
theorem declaration_by_name_enum_not_built_in (mem : Nat → declaration) (name : std_string)
    (declarations : List Nat) (c : Nat) :
    (schema_definition.construct mem name declarations false).declaration_by_name_enum c
        = enum_lookup.throw_no_operand ∧
    ∀ d, (schema_definition.construct mem name declarations false).declaration_by_name_enum c
        ≠ enum_lookup.returned d := by
  have h : (schema_definition.construct mem name declarations false).declaration_by_name_enum c
      = enum_lookup.throw_no_operand := by
    rw [construct_eq_filters]
    simp [schema_definition.declaration_by_name_enum]
  refine ⟨h, fun d hd => ?_⟩
  rw [h] at hd
  cases hd

/-! ## Mutators of an entity -/

/-- C14 as stated fails: `set_attributes` stores one attribute and no derived flag on a freshly
constructed entity, and `attributes().size()` is then `1` while `derived().size()` is `0`. -/
theorem set_attributes_accepts_mismatch :
    ((entity.construct 0 none).set_attributes [10] []).attributes.length = 1 ∧
    ((entity.construct 0 none).set_attributes [10] []).derived.length = 0 ∧
    ((entity.construct 0 none).set_attributes [10] []).attributes.length
      ≠ ((entity.construct 0 none).set_attributes [10] []).derived.length := by
  decide

/-- C14 amended: `attributes().size() == derived().size()` holds after construction, is
preserved by `set_subtypes` and `set_inverse_attributes` for all arguments, and holds after
`set_attributes(attributes, derived)` exactly when the two argument lists have the same length:
the mutator stores both lists as given, without a check. -/
theorem attributes_derived_size (e : entity) :
    (∀ name supertype, (entity.construct name supertype).attributes.length
        = (entity.construct name supertype).derived.length) ∧
    (∀ subtypes, e.attributes.length = e.derived.length →
      (e.set_subtypes subtypes).attributes.length = (e.set_subtypes subtypes).derived.length) ∧
    (∀ inverse_attributes, e.attributes.length = e.derived.length →
      (e.set_inverse_attributes inverse_attributes).attributes.length
        = (e.set_inverse_attributes inverse_attributes).derived.length) ∧
    (∀ attributes derived,
      (e.set_attributes attributes derived).attributes = attributes ∧
      (e.set_attributes attributes derived).derived = derived ∧
      ((e.set_attributes attributes derived).attributes.length
          = (e.set_attributes attributes derived).derived.length
        ↔ attributes.length = derived.length)) := by
  cases e with
  | mk n sup subs attrs d inv =>
    simp [entity.construct, entity.set_subtypes, entity.set_inverse_attributes,
      entity.set_attributes, entity.attributes, entity.derived]

theorem attributes_derived_size_witness :
    (example_Derived.attributes.length = example_Derived.derived.length) ∧
    ((example_Derived.set_subtypes [7]).attributes.length
      = (example_Derived.set_subtypes [7]).derived.length) ∧
    ((example_Derived.set_inverse_attributes [8, 9]).attributes.length
      = (example_Derived.set_inverse_attributes [8, 9]).derived.length) :=
  ⟨by decide,
    (attributes_derived_size example_Derived).2.1 [7] (by decide),
    (attributes_derived_size example_Derived).2.2.1 [8, 9] (by decide)⟩

/-! ## Narrowing queries -/

/-- C15 as stated fails: for the object of the base class `declaration` at `104` all four
narrowing queries return null. -/
theorem narrowing_queries_all_null :
    narrowing_queries example_declarations 104 = [none, none, none, none] ∧
    ((narrowing_queries example_declarations 104).filter Option.isSome).length = 0 := by
  decide

/-- C15 amended: for every declaration that is an object of one of the four subclasses, exactly
one of `as_type_declaration()`, `as_select_type()`, `as_enumeration_type()`, `as_entity()`
returns non-null; for an object of the base class `declaration` all four return null; and every
non-null result is the declaration itself. -/
theorem narrowing_queries_exactly_one (mem : Nat → declaration) (p : Nat) :
    ((mem p).is_plain = false →
      ((narrowing_queries mem p).filter Option.isSome).length = 1) ∧
    ((mem p).is_plain = true → ∀ r ∈ narrowing_queries mem p, r = none) ∧
    (∀ r ∈ narrowing_queries mem p, ∀ q, r = some q → q = p) := by
  simp only [narrowing_queries, as_type_declaration, as_select_type, as_enumeration_type,
    as_entity, declaration.is_plain]
  cases mem p <;> simp

theorem narrowing_queries_exactly_one_witness :
    ((example_declarations 101).is_plain = false ∧
      ((narrowing_queries example_declarations 101).filter Option.isSome).length = 1) ∧
    ((example_declarations 104).is_plain = true ∧
      ∀ r ∈ narrowing_queries example_declarations 104, r = none) :=
  ⟨⟨by decide, (narrowing_queries_exactly_one example_declarations 101).1 (by decide)⟩,
    ⟨by decide, (narrowing_queries_exactly_one example_declarations 104).2.1 (by decide)⟩⟩

/-! ## Inverse attributes and select lists -/

/-- C16: `all_inverse_attributes(E)` is `all_inverse_attributes(supertype(E))` followed by the
inverse attributes last given to `set_inverse_attributes` on `E`, in order, and just those when
`E` has no supertype; a later call replaces the list of an earlier one, and `set_subtypes` and
`set_attributes` leave it alone. -/
theorem all_inverse_attributes_flatten (e : entity) (inverse_attributes : List Nat) :
    (∀ s, e.supertype = some s →
      (e.set_inverse_attributes inverse_attributes).all_inverse_attributes
        = s.all_inverse_attributes ++ inverse_attributes) ∧
    (e.supertype = none →
      (e.set_inverse_attributes inverse_attributes).all_inverse_attributes
        = inverse_attributes) ∧
    (∀ earlier, ((e.set_inverse_attributes earlier).set_inverse_attributes
        inverse_attributes).all_inverse_attributes
      = (e.set_inverse_attributes inverse_attributes).all_inverse_attributes) ∧
    (∀ subtypes, (e.set_subtypes subtypes).all_inverse_attributes = e.all_inverse_attributes) ∧
    (∀ attributes derived,
      (e.set_attributes attributes derived).all_inverse_attributes
        = e.all_inverse_attributes) := by
  cases e with
  | mk n sup subs attrs d inv =>
    cases sup with
    | none =>
      simp [entity.supertype, entity.set_inverse_attributes, entity.all_inverse_attributes,
        entity.set_subtypes, entity.set_attributes]
    | some s0 =>
      simp [entity.supertype, entity.set_inverse_attributes, entity.all_inverse_attributes,
        entity.set_subtypes, entity.set_attributes]

theorem all_inverse_attributes_flatten_witness :
    ((entity.mk 1 (some (example_Base.set_inverse_attributes [20])) [] [11] [false]
        []).set_inverse_attributes [21, 22]).all_inverse_attributes
      = (example_Base.set_inverse_attributes [20]).all_inverse_attributes ++ [21, 22] ∧
    (example_Base.set_inverse_attributes [20]).all_inverse_attributes = [20] :=
  ⟨(all_inverse_attributes_flatten
      (entity.mk 1 (some (example_Base.set_inverse_attributes [20])) [] [11] [false] [])
      [21, 22]).1 (example_Base.set_inverse_attributes [20]) rfl,
    (all_inverse_attributes_flatten example_Base [20]).2.1 rfl⟩

/-- C17: a `select_type` constructed with the list `L` has `select_list()` equal to `L`, with
the same length and the same element at every position, through either constructor (the one
that takes the name as a string exists only when the registry knows the name); for
`[Base, Derived]` the length is `2` and `Base` comes first. -/
theorem select_list_construct (L : List Nat) :
    (∀ name, (select_type_construct name L).select_list = some L) ∧
    (∀ FromString name d, select_type_construct_name FromString name L = some d →
      d.select_list = some L) ∧
    (∀ name, ∃ M, (select_type_construct name L).select_list = some M ∧
      M.length = L.length ∧ ∀ i : Nat, M[i]? = L[i]?) ∧
    (∀ name Base Derived, ∃ M,
      (select_type_construct name [Base, Derived]).select_list = some M ∧
      M.length = 2 ∧ M[0]? = some Base ∧ M[1]? = some Derived) := by
  refine ⟨fun _ => rfl, ?_, fun _ => ⟨L, rfl, rfl, fun _ => rfl⟩,
    fun _ Base Derived => ⟨[Base, Derived], rfl, rfl, rfl, rfl⟩⟩
  intro FromString name d h
  unfold select_type_construct_name at h
  cases hcode : FromString name with
  | none => simp [hcode] at h
  | some code =>
    simp only [hcode, Option.some.injEq] at h
    subst h
    rfl

theorem select_list_construct_witness :
    select_type_construct_name (fun _ => some 2) "Choice".toList [100, 101]
        = some (declaration.select_type 2 [100, 101]) ∧
    (declaration.select_type 2 [100, 101]).select_list = some [100, 101] :=
  ⟨rfl, (select_list_construct [100, 101]).2.1 (fun _ => some 2) "Choice".toList
    (declaration.select_type 2 [100, 101]) rfl⟩

/-! ## Levels of the supertype chain -/

theorem supertype_chain_ne_nil (e : entity) : e.supertype_chain ≠ [] := by
  rw [supertype_chain_eq]
  exact List.cons_ne_nil _ _

theorem ancestors_of_some (n : Nat) (s : entity) (subs attrs : List Nat) (d : List Bool)
    (inv : List Nat) : (entity.mk n (some s) subs attrs d inv).ancestors = s.supertype_chain :=
  rfl

/-- Every level of the chain of `e` has a chain that is no longer than the chain of `e`. -/
theorem supertype_chain_length_le :
    ∀ (e y : entity), y ∈ e.supertype_chain →
      y.supertype_chain.length ≤ e.supertype_chain.length
  | .mk n (some s) subs attrs d inv, y, hy => by
      rw [supertype_chain_eq, ancestors_of_some] at hy
      rcases List.mem_cons.mp hy with h | h
      · rw [h]
      · have := supertype_chain_length_le s y h
        rw [supertype_chain_eq (entity.mk n (some s) subs attrs d inv), ancestors_of_some]
        simp only [List.length_cons]
        omega
  | .mk n none subs attrs d inv, y, hy => by
      rw [supertype_chain_eq] at hy
      simp only [entity.ancestors, List.mem_singleton] at hy
      rw [hy]

/-- The chain of `e` splits at each of its levels `L` into the levels walked before `L` and the
chain of `L`; the levels before `L` have longer chains than `L`. -/
theorem supertype_chain_split_length :
    ∀ (e L : entity), L ∈ e.supertype_chain →
      ∃ pre, e.supertype_chain = pre ++ L.supertype_chain ∧
        ∀ x ∈ pre, L.supertype_chain.length < x.supertype_chain.length
  | .mk n (some s) subs attrs d inv, L, hL => by
      by_cases hLe : L = entity.mk n (some s) subs attrs d inv
      · exact ⟨[], by rw [hLe]; rfl, fun x hx => by cases hx⟩
      · rw [supertype_chain_eq, ancestors_of_some] at hL
        rcases List.mem_cons.mp hL with h | h
        · exact absurd h hLe
        · obtain ⟨pre, hpre, hlen⟩ := supertype_chain_split_length s L h
          refine ⟨entity.mk n (some s) subs attrs d inv :: pre, ?_, ?_⟩
          · rw [supertype_chain_eq (entity.mk n (some s) subs attrs d inv), ancestors_of_some,
              hpre]
            rfl
          · intro x hx
            rcases List.mem_cons.mp hx with hx | hx
            · rw [hx, supertype_chain_eq (entity.mk n (some s) subs attrs d inv),
                ancestors_of_some, hpre]
              simp only [List.length_cons, List.length_append]
              omega
            · exact hlen x hx
  | .mk n none subs attrs d inv, L, hL => by
      rw [supertype_chain_eq] at hL
      simp only [entity.ancestors, List.mem_singleton] at hL
      exact ⟨[], by rw [hL]; rfl, fun x hx => by cases hx⟩

/-- The levels walked before `L` are the levels of the chain of `e` outside the chain of `L`. -/
theorem supertype_chain_split (e L : entity) (hL : L ∈ e.supertype_chain) :
    ∃ pre, e.supertype_chain = pre ++ L.supertype_chain ∧
      ∀ x ∈ pre, x ∈ e.supertype_chain ∧ x ∉ L.supertype_chain := by
  obtain ⟨pre, hpre, hlen⟩ := supertype_chain_split_length e L hL
  refine ⟨pre, hpre, fun x hx => ⟨?_, ?_⟩⟩
  · rw [hpre]
    exact List.mem_append.mpr (Or.inl hx)
  · intro hmem
    have h1 := supertype_chain_length_le L x hmem
    have h2 := hlen x hx
    omega

/-- Levels without a match are walked past: the walk from `e` continues as the walk from the
first level after them. -/
theorem index_walk_skip (pred : Nat → Bool) :
    ∀ (pre : List entity) (e L : entity), e.supertype_chain = pre ++ L.supertype_chain →
      (∀ x ∈ pre, ∀ a ∈ x.attributes, pred a = false) →
      e.index_walk pred (-1) = L.index_walk pred (-1)
  | [], e, L, hchain, _ => by
      rw [List.nil_append, supertype_chain_eq e, supertype_chain_eq L] at hchain
      rw [(List.cons.inj hchain).1]
  | x :: pre, .mk n (some s) subs attrs d inv, L, hchain, hpre => by
      rw [supertype_chain_eq, ancestors_of_some, List.cons_append] at hchain
      obtain ⟨hx, htail⟩ := List.cons.inj hchain
      have hown : ∀ a ∈ attrs, pred a = false := by
        have := hpre x (List.mem_cons_self _ _)
        rw [← hx] at this
        exact this
      have hk : std_find_if pred attrs = attrs.length :=
        (std_find_if_eq_length pred attrs).mpr hown
      have hstep : index_step (-1) attrs (std_find_if pred attrs) = -1 := by
        simp [index_step, hk]
      simp only [entity.index_walk]
      rw [hstep]
      exact index_walk_skip pred pre s L htail
        (fun y hy => hpre y (List.mem_cons_of_mem _ hy))
  | x :: pre, .mk n none subs attrs d inv, L, hchain, _ => by
      rw [supertype_chain_eq, List.cons_append] at hchain
      have htail := (List.cons.inj hchain).2
      simp only [entity.ancestors] at htail
      have hnil : L.supertype_chain = [] := (List.append_eq_nil.mp htail.symm).2
      exact absurd hnil (supertype_chain_ne_nil L)

theorem all_attributes_length_eq_sum :
    ∀ (e : entity),
      e.all_attributes.length = (e.supertype_chain.map (fun x => x.attributes.length)).sum
  | .mk n (some s) subs attrs d inv => by
      have hown : (entity.mk n (some s) subs attrs d inv).attributes = attrs := rfl
      rw [supertype_chain_eq, ancestors_of_some]
      simp only [entity.all_attributes, List.length_append, List.map_cons, List.sum_cons]
      rw [all_attributes_length_eq_sum s, hown]
      omega
  | .mk n none subs attrs d inv => by
      simp [entity.all_attributes, entity.supertype_chain, entity.attributes]

/-- A level that holds a match yields the offset of the match plus the attribute counts of its
proper ancestors. -/
theorem index_walk_own (pred : Nat → Bool) (L : entity)
    (hk : std_find_if pred L.attributes ≠ L.attributes.length) :
    L.index_walk pred (-1)
      = (std_find_if pred L.attributes : Int)
        + ((L.ancestors.map (fun x => x.attributes.length)).sum : Nat) := by
  cases L with
  | mk n sup subs attrs d inv =>
    have hown : (entity.mk n sup subs attrs d inv).attributes = attrs := rfl
    rw [hown] at hk ⊢
    have hstep : index_step (-1) attrs (std_find_if pred attrs)
        = (std_find_if pred attrs : Int) := by
      simp [index_step, hk]
    cases sup with
    | none => simp [entity.index_walk, entity.ancestors, hstep]
    | some s =>
      simp only [entity.index_walk, entity.ancestors]
      rw [hstep, index_walk_found pred s _ (by omega), all_attributes_length_eq_sum s]

/-- The offset returned by `std_find_if` is the position of the first element that satisfies
the predicate. -/
theorem std_find_if_eq_of_first {α : Type} (pred : α → Bool) :
    ∀ (xs : List α) (p : Nat) (a : α), xs[p]? = some a → pred a = true →
      (∀ j b, j < p → xs[j]? = some b → pred b = false) → std_find_if pred xs = p
  | [], p, a, h, _, _ => by simp at h
  | x :: xs, 0, a, h, ha, _ => by
      simp only [List.getElem?_cons_zero, Option.some.injEq] at h
      simp [std_find_if, h, ha]
  | x :: xs, p + 1, a, h, ha, hfirst => by
      have hx : pred x = false := hfirst 0 x (by omega) (by simp)
      simp only [std_find_if, hx, Bool.false_eq_true, if_false]
      rw [std_find_if_eq_of_first pred xs p a (by simpa using h) ha
        (fun j b hj hb => hfirst (j + 1) b (by omega) (by simpa using hb))]

/-- The walk from `e` with a match first found at the level `L`, at position `p` of the own
list of `L`, ends at `p` plus the attribute counts of the proper ancestors of `L`. -/
theorem index_walk_nearest (pred : Nat → Bool) (e L : entity) (hL : L ∈ e.supertype_chain)
    (hnear : ∀ x ∈ e.supertype_chain, x ∉ L.supertype_chain →
      ∀ a ∈ x.attributes, pred a = false)
    (p : Nat) (a : Nat) (hp : L.attributes[p]? = some a) (ha : pred a = true)
    (hfirst : ∀ j b, j < p → L.attributes[j]? = some b → pred b = false) :
    e.index_walk pred (-1)
      = (p : Int) + ((L.ancestors.map (fun x => x.attributes.length)).sum : Nat) := by
  obtain ⟨pre, hpre, hout⟩ := supertype_chain_split e L hL
  have hk := std_find_if_eq_of_first pred L.attributes p a hp ha hfirst
  have hlt := getElem?_lt_length hp
  rw [index_walk_skip pred pre e L hpre (fun x hx => hnear x (hout x hx).1 (hout x hx).2),
    index_walk_own pred L (by omega), hk]

/-- C18: when the probe matches at some level, let `L` be the level nearest to `E` (first `E`,
then its supertype, and so on) whose own list holds a match and `p` the position of the first
match in that list; then `attribute_index` is `p` plus the sum of `len(attributes())` over the
proper ancestors of `L`, for the lookup by identity and for the lookup by name.  The levels
between `E` and `L` that were walked past do not appear in the result. -/
theorem attribute_index_nearest_level (mem : Nat → entity_attribute) (e L : entity)
    (hL : L ∈ e.supertype_chain) (p : Nat) :
    (∀ A,
      (∀ x ∈ e.supertype_chain, x ∉ L.supertype_chain → A ∉ x.attributes) →
      L.attributes[p]? = some A →
      (∀ j, j < p → L.attributes[j]? ≠ some A) →
      e.attribute_index A
        = (p : Int) + ((L.ancestors.map (fun x => x.attributes.length)).sum : Nat)) ∧
    (∀ n a,
      (∀ x ∈ e.supertype_chain, x ∉ L.supertype_chain →
        ∀ b ∈ x.attributes, (mem b).name ≠ n) →
      L.attributes[p]? = some a → (mem a).name = n →
      (∀ j b, j < p → L.attributes[j]? = some b → (mem b).name ≠ n) →
      e.attribute_index_name mem n
        = (p : Int) + ((L.ancestors.map (fun x => x.attributes.length)).sum : Nat)) := by
  constructor
  · intro A hnear hp hfirst
    unfold entity.attribute_index
    rw [attribute_index_loop_eq_walk]
    apply index_walk_nearest (fun x => x == A) e L hL _ p A hp (by simp)
    · intro j b hj hb
      have hne : b ≠ A := fun hc => hfirst j hj (by rw [hb, hc])
      simpa using hne
    · intro x hx hout a ha
      have hne : a ≠ A := fun hc => hnear x hx hout (by rw [← hc]; exact ha)
      simpa using hne
  · intro n a hnear hp ha hfirst
    unfold entity.attribute_index_name
    rw [attribute_index_name_loop_eq_walk]
    apply index_walk_nearest (attribute_by_name_cmp mem n) e L hL _ p a hp
      (by simpa [attribute_by_name_cmp] using ha)
    · intro j b hj hb
      simpa [attribute_by_name_cmp] using hfirst j b hj hb
    · intro x hx hout b hb
      simpa [attribute_by_name_cmp] using hnear x hx hout b hb

theorem example_Named_chain : example_Named.supertype_chain = [example_Named, example_Base] :=
  rfl

theorem example_Base_chain : example_Base.supertype_chain = [example_Base] :=
  rfl

theorem example_Base_mem_chain : example_Base ∈ example_Named.supertype_chain := by
  rw [example_Named_chain]
  exact List.mem_cons_of_mem _ (List.mem_cons_self _ _)

theorem example_Named_mem_chain : example_Named ∈ example_Named.supertype_chain := by
  rw [example_Named_chain]
  exact List.mem_cons_self _ _

theorem example_Base_mem_ancestors : example_Base ∈ example_Named.ancestors := by
  have h : example_Named.ancestors = [example_Base] := rfl
  rw [h]
  exact List.mem_cons_self _ _

/-- The only level of the chain of `example_Named` outside the chain of `example_Base`. -/
theorem example_Named_outside (x : entity) (hx : x ∈ example_Named.supertype_chain)
    (hout : x ∉ example_Base.supertype_chain) : x = example_Named := by
  rw [example_Named_chain] at hx
  rw [example_Base_chain] at hout
  rcases List.mem_cons.mp hx with h | h
  · exact h
  · exact absurd h hout

theorem attribute_index_nearest_level_witness :
    (example_Base ∈ example_Named.supertype_chain ∧
      example_Named.attribute_index 10 = (0 : Int) + ((example_Base.ancestors.map
        (fun x => x.attributes.length)).sum : Nat)) ∧
    (example_Named ∈ example_Named.supertype_chain ∧
      example_Named.attribute_index_name example_attributes "y".toList
        = (1 : Int) + ((example_Named.ancestors.map
          (fun x => x.attributes.length)).sum : Nat)) :=
  ⟨⟨example_Base_mem_chain,
      (attribute_index_nearest_level example_attributes example_Named example_Base
        example_Base_mem_chain 0).1 10
        (by
          intro x hx hout
          rw [example_Named_outside x hx hout]
          decide)
        (by decide) (by intro j hj; omega)⟩,
    ⟨example_Named_mem_chain,
      (attribute_index_nearest_level example_attributes example_Named example_Named
        example_Named_mem_chain 1).2 "y".toList 13
        (by
          intro x hx hout
          exact absurd hx hout)
        (by decide) (by decide)
        (by
          intro j b hj hb
          have hj0 : j = 0 := by omega
          subst hj0
          have hb12 : (12 : Nat) = b := Option.some.inj hb
          subst hb12
          decide)⟩⟩

theorem all_attributes_initial_segment :
    ∀ (pre : List entity) (e S : entity), e.supertype_chain = pre ++ S.supertype_chain →
      S.all_attributes <+: e.all_attributes
  | [], e, S, hchain => by
      rw [List.nil_append, supertype_chain_eq e, supertype_chain_eq S] at hchain
      rw [(List.cons.inj hchain).1]
  | x :: pre, .mk n (some s) subs attrs d inv, S, hchain => by
      rw [supertype_chain_eq, ancestors_of_some, List.cons_append] at hchain
      have htail := (List.cons.inj hchain).2
      simp only [entity.all_attributes]
      exact (all_attributes_initial_segment pre s S htail).trans (List.prefix_append _ _)
  | x :: pre, .mk n none subs attrs d inv, S, hchain => by
      rw [supertype_chain_eq, List.cons_append] at hchain
      have htail := (List.cons.inj hchain).2
      simp only [entity.ancestors] at htail
      have hnil : S.supertype_chain = [] := (List.append_eq_nil.mp htail.symm).2
      exact absurd hnil (supertype_chain_ne_nil S)

/-- C20: inherited attributes keep their index in subtypes.  For every ancestor `S` of `E`,
`all_attributes(S)` is a prefix of `all_attributes(E)`, and for every attribute `A` occurring in
`all_attributes(S)` that is an own attribute neither of `E` nor of a level strictly between `E`
and `S`, `attribute_index(E, A) = attribute_index(S, A)`. -/
theorem inherited_attribute_index (e S : entity) (hS : S ∈ e.ancestors) :
    S.all_attributes <+: e.all_attributes ∧
    ∀ A, A ∈ S.all_attributes →
      (∀ x ∈ e.supertype_chain, x ∉ S.supertype_chain → A ∉ x.attributes) →
      e.attribute_index A = S.attribute_index A := by
  have hmem : S ∈ e.supertype_chain := by
    rw [supertype_chain_eq]
    exact List.mem_cons_of_mem _ hS
  obtain ⟨pre, hpre, hout⟩ := supertype_chain_split e S hmem
  refine ⟨all_attributes_initial_segment pre e S hpre, ?_⟩
  intro A _ hown
  unfold entity.attribute_index
  rw [attribute_index_loop_eq_walk, attribute_index_loop_eq_walk]
  apply index_walk_skip (fun x => x == A) pre e S hpre
  intro x hx a ha
  have hne : a ≠ A := fun hc => hown x (hout x hx).1 (hout x hx).2 (by rw [← hc]; exact ha)
  simpa using hne

theorem inherited_attribute_index_witness :
    example_Base ∈ example_Named.ancestors ∧
    example_Base.all_attributes <+: example_Named.all_attributes ∧
    example_Named.attribute_index 10 = example_Base.attribute_index 10 :=
  ⟨example_Base_mem_ancestors,
    (inherited_attribute_index example_Named example_Base example_Base_mem_ancestors).1,
    (inherited_attribute_index example_Named example_Base example_Base_mem_ancestors).2 10
      (by decide)
      (by
        intro x hx hout
        rw [example_Named_outside x hx hout]
        decide)⟩

/-! ## Aggregation kinds -/

/-- C19: construct-then-read of the aggregation kind.  The code does not meet it: for every
`aggregation_type` and every `inverse_attribute`, whatever kind `k` the constructor was given,
`type_of_aggregation()` hands no value to the caller, because its body lacks `return`, while
`bound1()` and `bound2()` return the bounds given to the constructor. -/
theorem type_of_aggregation_returns_no_value :
    (∀ (k : aggregate_type) (bound1 bound2 : Int) (type_of_element : Nat),
      (aggregation_type.mk k bound1 bound2 type_of_element).type_of_aggregation = none ∧
      (aggregation_type.mk k bound1 bound2 type_of_element).type_of_aggregation ≠ some k ∧
      (aggregation_type.mk k bound1 bound2 type_of_element).bound1 = bound1 ∧
      (aggregation_type.mk k bound1 bound2 type_of_element).bound2 = bound2) ∧
    (∀ (name : std_string) (k : inverse_aggregate_type) (bound1 bound2 : Int)
        (entity_reference attribute_reference : Nat),
      (inverse_attribute.mk name k bound1 bound2 entity_reference
        attribute_reference).type_of_aggregation = none ∧
      (inverse_attribute.mk name k bound1 bound2 entity_reference
        attribute_reference).type_of_aggregation ≠ some k ∧
      (inverse_attribute.mk name k bound1 bound2 entity_reference
        attribute_reference).bound1 = bound1 ∧
      (inverse_attribute.mk name k bound1 bound2 entity_reference
        attribute_reference).bound2 = bound2) := by
  constructor
  · intro k bound1 bound2 type_of_element
    exact ⟨rfl, (fun h => by cases h), rfl, rfl⟩
  · intro name k bound1 bound2 entity_reference attribute_reference
    exact ⟨rfl, (fun h => by cases h), rfl, rfl⟩

end IfcParse
